import Mathlib

/-!
# OpenVolanta: the X-Plane UDP client (`XPlane_udp/src/main.go`)

A shallow embedding of the simulator-facing client and the properties of its
specification.

Conventions of the embedding.

* A Go `string` and a Go `[]byte` are lists of bytes (`List Nat`); `str`
  turns an ASCII literal into its bytes.
* A Go `int` is an `Int`.  The explicit conversions of the source
  (`int32(freq)`, `int32(idx)`, `byte(val)`) are modelled with their
  wrap-around.
* A Go `float32` is its IEEE-754 binary32 bit pattern (a `Nat` below `2^32`);
  only the comparisons and the conversion to `byte` that the source performs
  are modelled.
* A Go `map` is an association list read with `GoMap.get`; `m[k] = v` is
  `GoMap.set` and `delete(m, k)` is `GoMap.delete`.  The order in which
  `range` visits a map is unspecified in Go, so `AddDataRefIn` takes the
  visiting order as an argument; `AddDataRef` uses the stored order, and
  `addDataRefIn_order` shows that in a consistent state every order gives the
  same result.
* The `Listen` goroutine decodes a datagram under `valuesMutex`, so a decoded
  datagram is one step.  `AddDataRef` holds the mutex only around the cache
  delete of a release; `AddDataRefDuring` is the call with datagrams decoded
  between that unlock and the registry delete, and `Reach` has both.  What
  arrives from the network, when the timers fire and whether a send succeeds
  are arguments of the functions.
* A read into the 2048-byte buffers keeps the first 2048 bytes of a datagram.
-/

namespace OpenVolanta

/-! ## Bytes and strings -/

/-- A Go string: a sequence of bytes. -/
abbrev GoString := List Nat

/-- The bytes of an ASCII literal. -/
def str (s : String) : GoString := s.toList.map Char.toNat

/-- The Go conversion `int32(x)` of an `int`: wrap-around into the signed 32-bit range. -/
def toInt32 (x : Int) : Int := (x + 2 ^ 31) % 2 ^ 32 - 2 ^ 31

/-- The four bytes `binary.Write(buf, binary.LittleEndian, int32(x))` appends. -/
def putInt32LE (x : Int) : List Nat :=
  let u := (toInt32 x % 2 ^ 32).toNat
  [u % 256, u / 256 % 256, u / 65536 % 256, u / 16777216 % 256]

/-- The byte at offset `i` of a slice (0 when out of range; callers stay in range). -/
def byteAt (bs : List Nat) (i : Nat) : Nat := bs.getD i 0

/-- Little-endian `uint16` at offset `off`. -/
def getUint16LE (bs : List Nat) (off : Nat) : Nat :=
  byteAt bs off + 256 * byteAt bs (off + 1)

/-- Little-endian `uint32` at offset `off`. -/
def getUint32LE (bs : List Nat) (off : Nat) : Nat :=
  byteAt bs off + 256 * byteAt bs (off + 1) + 65536 * byteAt bs (off + 2)
    + 16777216 * byteAt bs (off + 3)

/-- Little-endian `int32` at offset `off` (two's complement). -/
def getInt32LE (bs : List Nat) (off : Nat) : Int :=
  let u := getUint32LE bs off
  if u < 2 ^ 31 then (u : Int) else (u : Int) - 2 ^ 32

/-- Go's `bytes.HasPrefix(s, p)`. -/
def startsWith (s p : List Nat) : Bool := p.isPrefixOf s

/-- Removes the zero bytes at the end of a fixed-size field. -/
def stripTrailingZeros (bs : List Nat) : List Nat :=
  (bs.reverse.dropWhile (fun b => b == 0)).reverse

/-! ## IEEE-754 binary32 -/

/-- A `float32`, as its bit pattern. -/
abbrev F32 := Nat

namespace F32

/-- Sign bit. -/
def sign (b : F32) : Nat := b / 2 ^ 31 % 2

/-- Biased exponent field. -/
def expo (b : F32) : Nat := b / 2 ^ 23 % 256

/-- Fraction field. -/
def frac (b : F32) : Nat := b % 2 ^ 23

/-- Not-a-number: exponent all ones, fraction non-zero. -/
def isNaN (b : F32) : Bool := expo b == 255 && frac b != 0

/-- Magnitude times `2^149` (every finite binary32 is a multiple of `2^-149`);
an infinity gets `2^277`, above every finite magnitude. -/
def mag (b : F32) : Nat :=
  if expo b = 0 then frac b else (2 ^ 23 + frac b) * 2 ^ (expo b - 1)

/-- Value times `2^149`, for a pattern that is not a NaN. -/
def scaled (b : F32) : Int := if sign b = 1 then -(mag b : Int) else (mag b : Int)

/-- The comparison `a < b` of two `float32`s (false when either is a NaN). -/
def lt (a b : F32) : Bool := !isNaN a && !isNaN b && decide (scaled a < scaled b)

/-- The constant `0.0`. -/
def zero : F32 := 0

/-- The constant `-0.001` as a `float32`: the nearest binary32, `0xBA83126F`. -/
def negMilli : F32 := 0xBA83126F

/-- The conversion `byte(val)` of the source.  The value is truncated toward
zero; for a value outside the target range Go leaves the result to the
implementation, and this follows amd64 (convert to `int32`, with the
indefinite value `-2^31` for a NaN or an overflow, then keep the low byte). -/
def toByte (b : F32) : Nat :=
  let t : Int := Int.tdiv (scaled b) (2 ^ 149)
  let i32 : Int := if isNaN b || t < -(2 ^ 31) || 2 ^ 31 ≤ t then -(2 ^ 31) else t
  (i32 % 256).toNat

/-- The interval of the specification, in its own words: the value lies
strictly between `-0.001` and `0` as a real number (`value = scaled / 2^149`,
so `-0.001 < value` is `-2^149 < 1000 * scaled`). -/
def inNoiseInterval (v : F32) : Bool :=
  !isNaN v && decide (-(2 ^ 149 : Int) < 1000 * scaled v) && decide (scaled v < 0)

/-- The pattern `v` is the whole number `n`. -/
def IsWhole (v : F32) (n : Nat) : Prop := isNaN v = false ∧ scaled v = (n : Int) * 2 ^ 149

end F32

/-! ## Go maps -/

namespace GoMap

variable {K V : Type} [DecidableEq K]

/-- The lookup `m[k]` with its `ok` flag. -/
def get : List (K × V) → K → Option V
  | [], _ => none
  | (k', v) :: m, k => if k' = k then some v else get m k

/-- The statement `delete(m, k)`. -/
def delete (m : List (K × V)) (k : K) : List (K × V) :=
  m.filter (fun e => decide (e.1 ≠ k))

/-- The assignment `m[k] = v`. -/
def set (m : List (K × V)) (k : K) (v : V) : List (K × V) :=
  (k, v) :: delete m k

end GoMap

/-! ## The client -/

/-- The fields of `XPlaneUdp` that the operations below read or write.
`socket` records whether `xp.socket` is non-nil. -/
structure XPlaneUdp where
  socket : Bool
  datarefIdx : Int
  datarefs : List (Int × GoString)
  xplaneValues : List (GoString × F32)
deriving DecidableEq

/-- The constructor `NewXPlaneUdp`: empty maps, counter 0, no socket. -/
def NewXPlaneUdp : XPlaneUdp :=
  { socket := false, datarefIdx := 0, datarefs := [], xplaneValues := [] }

/-- The success path of `InitSocket`: the socket is installed. -/
def InitSocket (xp : XPlaneUdp) : XPlaneUdp := { xp with socket := true }

/-- The lookup loop of `AddDataRef`:
`idx := -9999; for k, v := range xp.datarefs { if v == dataref { idx = k; break } }`,
with the entries visited in the order `order`. -/
def rangeFind : List (Int × GoString) → GoString → Int
  | [], _ => -9999
  | (k, v) :: rest, dataref => if v = dataref then k else rangeFind rest dataref

/-- The 400-byte name field: `datarefBytes := make([]byte, 400); copy(datarefBytes, dataref)`. -/
def nameField (dataref : GoString) : List Nat :=
  dataref.take 400 ++ List.replicate (400 - dataref.length) 0

/-- The datagram `AddDataRef` builds: `"RREF\x00"`, `int32(freq)`, `int32(idx)`, name field. -/
def rrefRequest (freq idx : Int) (dataref : GoString) : List Nat :=
  [82, 82, 69, 70, 0] ++ putInt32LE freq ++ putInt32LE idx ++ nameField dataref

/-- The datagram `request` handed to the socket carries, per the wire format,
the frequency `freq`, the index `idx` and the name `dataref`: it is 413 bytes
long, starts with `"RREF\0"`, holds `freq` in bytes 5..8 and `idx` in bytes
9..12 as little-endian `int32`, and in bytes 13..412 the name cut to 400 bytes
and padded with zero bytes. -/
def Carries (request : Option (List Nat)) (freq idx : Int) (dataref : GoString) : Prop :=
  ∃ req, request = some req ∧ req.length = 413 ∧ req.take 5 = str "RREF\x00"
    ∧ getInt32LE req 5 = freq ∧ getInt32LE req 9 = idx
    ∧ req.drop 13 = dataref.take 400 ++ List.replicate (400 - dataref.length) 0

/-- What one call of `AddDataRef` leaves behind: the client, the final value of
the local `idx`, and the datagram handed to the socket (`none` when the call
returned early because the socket is nil). -/
structure AddResult where
  xp : XPlaneUdp
  idx : Int
  request : Option (List Nat)

/-- The method `AddDataRef(dataref, freq)`, the registry being ranged over in the order `order`. -/
def AddDataRefIn (order : List (Int × GoString)) (xp : XPlaneUdp) (dataref : GoString)
    (freq : Int) : AddResult :=
  if xp.socket = false then { xp := xp, idx := -9999, request := none }
  else
    let idx := rangeFind order dataref
    if idx ≠ -9999 then
      if freq = 0 then
        { xp := { xp with xplaneValues := GoMap.delete xp.xplaneValues dataref,
                          datarefs := GoMap.delete xp.datarefs idx },
          idx := idx, request := some (rrefRequest freq idx dataref) }
      else { xp := xp, idx := idx, request := some (rrefRequest freq idx dataref) }
    else if freq > 0 then
      { xp := { xp with datarefs := GoMap.set xp.datarefs xp.datarefIdx dataref,
                        datarefIdx := xp.datarefIdx + 1 },
        idx := xp.datarefIdx, request := some (rrefRequest freq xp.datarefIdx dataref) }
    else { xp := xp, idx := idx, request := some (rrefRequest freq idx dataref) }

/-- The method `AddDataRef` with the registry visited in its stored order. -/
def AddDataRef (xp : XPlaneUdp) (dataref : GoString) (freq : Int) : AddResult :=
  AddDataRefIn xp.datarefs xp dataref freq

/-- The method `GetValueSafe`. -/
def GetValueSafe (xp : XPlaneUdp) (dataref : GoString) : Option F32 :=
  GoMap.get xp.xplaneValues dataref

/-! ## The value-packet decoder of `Listen` -/

/-- The body of the record loop once `idx` and `value` are read: resolve the
index, clamp, store. -/
def storeRecord (xp : XPlaneUdp) (idx : Int) (value : F32) : XPlaneUdp :=
  match GoMap.get xp.datarefs idx with
  | some name =>
    let value := if F32.lt value F32.zero && F32.lt F32.negMilli value then F32.zero else value
    { xp with xplaneValues := GoMap.set xp.xplaneValues name value }
  | none => xp

/-- One iteration `i` of the record loop over `valuesData`. -/
def decodeRecord (valuesData : List Nat) (xp : XPlaneUdp) (i : Nat) : XPlaneUdp :=
  let singleData := (valuesData.drop (i * 8)).take 8
  storeRecord xp (getInt32LE singleData 0) (getUint32LE singleData 4)

/-- What `Listen` does with one datagram the network delivers (nothing while
the socket is nil).  The read `n, _, err := xp.socket.ReadFromUDP(buf)` stores
at most the 2048 bytes of `buf`, and `data := buf[:n]` is that part. -/
def ListenStep (xp : XPlaneUdp) (datagram : List Nat) : XPlaneUdp :=
  if xp.socket = false then xp
  else if startsWith (datagram.take 2048) (str "RREF,") then
    let valuesData := (datagram.take 2048).drop 5
    let numValues := valuesData.length / 8
    (List.range numValues).foldl (decodeRecord valuesData) xp
  else xp

/-! ## Beacon discovery -/

/-- The struct `BeaconData`. -/
structure BeaconData where
  IP : GoString
  Port : Int
  Hostname : GoString
  XPlaneVersion : Int
  Role : Int
deriving DecidableEq

/-- The errors `FindIp` returns after a datagram was read. -/
inductive FindIpError where
  | nonBeaconPacket
  | decodeFailed
  | ErrXPlaneVersionNotSupported
deriving DecidableEq

/-- How the steps of `FindIp` after the read end. -/
inductive FindIpResult where
  | ok (beacon : BeaconData)
  | error (e : FindIpError)
  | slicePanic
deriving DecidableEq

/-- The local struct `becnStruct`. -/
structure becnStruct where
  BeaconMajorVersion : Nat
  BeaconMinorVersion : Nat
  ApplicationHostID : Int
  VersionNumber : Int
  Role : Nat
  Port : Nat

/-- Go's `bytes.IndexByte(b, c)`: the first position of `c`, or `-1`. -/
def IndexByte : List Nat → Nat → Int
  | [], _ => -1
  | b :: rest, c => if b = c then 0 else
      let r := IndexByte rest c
      if r = -1 then -1 else r + 1

/-- The decoding `binary.Read(reader, binary.LittleEndian, &beacon)` of the
16-byte header; it fails when the reader holds fewer than 16 bytes. -/
def readBecn (header : List Nat) : Option becnStruct :=
  if header.length < 16 then none
  else some
    { BeaconMajorVersion := byteAt header 0
      BeaconMinorVersion := byteAt header 1
      ApplicationHostID := getInt32LE header 2
      VersionNumber := getInt32LE header 6
      Role := getUint32LE header 10
      Port := getUint16LE header 14 }

/-- The steps of `FindIp` from `n, sender, err := conn.ReadFrom(buf)` on, the
read returning without error: `datagram` is what the network delivers and
`sender` the sender's address.  `buf` is 2048 zeroed bytes, so the read stores
at most the first 2048 bytes of the datagram and `packet := buf[:n]` is that
part.  `packet[5:21]` reslices up to the capacity and reads the zeros behind a
short packet, while `packet[21:]` needs `21 ≤ n`. -/
def FindIp (datagram : List Nat) (sender : GoString) : FindIpResult :=
  let packet := datagram.take 2048
  let buf := packet ++ List.replicate (2048 - packet.length) 0
  if !startsWith packet (str "BECN\x00") then .error .nonBeaconPacket
  else
    match readBecn ((buf.drop 5).take 16) with
    | none => .error .decodeFailed
    | some beacon =>
      if beacon.BeaconMajorVersion ≠ 1 ∨ beacon.BeaconMinorVersion > 2
          ∨ beacon.ApplicationHostID ≠ 1 then
        .error .ErrXPlaneVersionNotSupported
      else if packet.length < 21 then .slicePanic
      else
        let hostnameBytes := packet.drop 21
        let nullIdx := IndexByte hostnameBytes 0
        let nullIdx := if nullIdx = -1 then (hostnameBytes.length : Int) else nullIdx
        let hostname := hostnameBytes.take nullIdx.toNat
        .ok { IP := sender, Port := (beacon.Port : Int), Hostname := hostname,
              XPlaneVersion := beacon.VersionNumber, Role := (beacon.Role : Int) }

/-- The name `fmt.Sprintf("%s[%d]", datarefBase, i)` of element `i`. -/
def drName (datarefBase : GoString) (i : Nat) : GoString :=
  datarefBase ++ str "[" ++ (Nat.toDigits 10 i).map Char.toNat ++ str "]"

/-- The datagrams the `Listen` goroutine decodes while another goroutine is
inside `GetString`: before each subscribe call, before each tick of the
100 ms ticker, and before each unsubscribe call.  The list `polls` has one
entry for each tick that fires before the 3 s timeout. -/
structure Arrivals where
  beforeSubscribe : Nat → List (List Nat)
  polls : List (List (List Nat))
  beforeUnsubscribe : Nat → List (List Nat)

/-- Decodes a batch of received datagrams, in order. -/
def listenAll (xp : XPlaneUdp) (batch : List (List Nat)) : XPlaneUdp :=
  batch.foldl ListenStep xp

/-- The loop `for i := 0; i < length; i++ { xp.AddDataRef(dr, freq) }` of
`GetString` (`freq` is 1 in step 1 and 0 in step 3). -/
def addAll (arrive : Nat → List (List Nat)) (datarefBase : GoString) (freq : Int)
    (xp : XPlaneUdp) (length : Nat) : XPlaneUdp :=
  (List.range length).foldl
    (fun xp i => (AddDataRef (listenAll xp (arrive i)) (drName datarefBase i) freq).xp) xp

/-- The scan of one tick, from iteration `i` on, with `fuel = length - i`
iterations left; returns `(complete, currentBytes)`. -/
def scanLoop (xp : XPlaneUdp) (datarefBase : GoString) (length : Nat) :
    Nat → Nat → List Nat → Bool → Bool × List Nat
  | 0, _, currentBytes, complete => (complete, currentBytes)
  | fuel + 1, i, currentBytes, complete =>
    match GetValueSafe xp (drName datarefBase i) with
    | none => (complete, currentBytes)
    | some val =>
      let b := F32.toByte val
      if b = 0 then (true, currentBytes)
      else
        let currentBytes := currentBytes ++ [b]
        let complete := if i = length - 1 then true else complete
        scanLoop xp datarefBase length fuel (i + 1) currentBytes complete

/-- The body of `case <-ticker.C` in `GetString`. -/
def scanTick (xp : XPlaneUdp) (datarefBase : GoString) (length : Nat) : Bool × List Nat :=
  scanLoop xp datarefBase length length 0 [] false

/-- The wait loop of `GetString`: one scan for each tick; when the ticks are
used up the timeout fires and `result` is still nil. -/
def waitLoop (datarefBase : GoString) (length : Nat) :
    XPlaneUdp → List (List (List Nat)) → XPlaneUdp × List Nat
  | xp, [] => (xp, [])
  | xp, batch :: rest =>
    let xp := listenAll xp batch
    let scan := scanTick xp datarefBase length
    if scan.1 then (xp, scan.2) else waitLoop datarefBase length xp rest

/-- The method `GetString(datarefBase, length)`: the client afterwards and the
string returned. -/
def GetString (xp : XPlaneUdp) (datarefBase : GoString) (length : Nat) (env : Arrivals) :
    XPlaneUdp × GoString :=
  let xp := addAll env.beforeSubscribe datarefBase 1 xp length
  let waited := waitLoop datarefBase length xp env.polls
  let xp := addAll env.beforeUnsubscribe datarefBase 0 waited.1 length
  (xp, waited.2)

/-! ## The aircraft change monitor -/

/-- The slice `icaoTriggerRefs`. -/
def icaoTriggerRefs : List GoString :=
  [str "sim/aircraft/view/acf_ICAO[0]", str "sim/aircraft/view/acf_ICAO[1]",
   str "sim/aircraft/view/acf_ICAO[2]", str "sim/aircraft/view/acf_ICAO[3]"]

/-- The initial subscription of `ManageAircraftUpdates`. -/
def subscribeTriggers (xp : XPlaneUdp) : XPlaneUdp :=
  icaoTriggerRefs.foldl (fun xp dr => (AddDataRef xp dr 1).xp) xp

/-- The loop that rebuilds `currentICAOBytes` from a list of datarefs. -/
def collectBytes (xp : XPlaneUdp) : List GoString → List Nat → List Nat
  | [], currentICAOBytes => currentICAOBytes
  | dr :: rest, currentICAOBytes =>
    match GetValueSafe xp dr with
    | some val =>
      if F32.toByte val ≠ 0 then collectBytes xp rest (currentICAOBytes ++ [F32.toByte val])
      else collectBytes xp rest currentICAOBytes
    | none => collectBytes xp rest currentICAOBytes

/-- The string `currentICAOPrefix` formed at the start of a tick. -/
def currentICAOPrefix (xp : XPlaneUdp) : GoString := collectBytes xp icaoTriggerRefs []

/-- The update of `lastICAO` at the end of a refetch; `sendOk` tells whether
`volanta.Send` returned nil. -/
def nextLastICAO (lastICAO currentICAOPrefix fullICAO : GoString) (sendOk : Bool) : GoString :=
  if !sendOk then lastICAO
  else if 0 < fullICAO.length ∧ fullICAO.length < 4 then fullICAO
  else if fullICAO.length ≥ 4 then fullICAO.take 4
  else currentICAOPrefix

/-! ### The registration pattern

`regRegex` is
`[A-Z]-[A-Z]{4}|([A-Z]|[1-9]){2}-[A-Z]{3}|N[0-9]{1,5}[A-Z]{0,2}`.
Go's `FindString` returns the leftmost match, and at one start position the
match a backtracking search finds first: the alternatives are tried in order and
the counted repetitions are greedy.  Nothing follows the repetitions of the
third alternative, so its greedy choice never has to be taken back.  All classes
are ASCII, so matching bytes is matching runes. -/

/-- The class `[A-Z]`. -/
def isUpper (b : Nat) : Bool := decide (65 ≤ b) && decide (b ≤ 90)

/-- The class `[0-9]`. -/
def isDigit (b : Nat) : Bool := decide (48 ≤ b) && decide (b ≤ 57)

/-- The group `([A-Z]|[1-9])`. -/
def isUpperOrDigit19 (b : Nat) : Bool := isUpper b || (decide (49 ≤ b) && decide (b ≤ 57))

/-- The first alternative `[A-Z]-[A-Z]{4}` at the start of `s`. -/
def matchLetterDash4 : List Nat → Option (List Nat)
  | a :: d :: b₁ :: b₂ :: b₃ :: b₄ :: _ =>
    if isUpper a && d == 45 && isUpper b₁ && isUpper b₂ && isUpper b₃ && isUpper b₄ then
      some [a, d, b₁, b₂, b₃, b₄]
    else none
  | _ => none

/-- The second alternative `([A-Z]|[1-9]){2}-[A-Z]{3}` at the start of `s`. -/
def matchTwoDash3 : List Nat → Option (List Nat)
  | a₁ :: a₂ :: d :: b₁ :: b₂ :: b₃ :: _ =>
    if isUpperOrDigit19 a₁ && isUpperOrDigit19 a₂ && d == 45 && isUpper b₁ && isUpper b₂
        && isUpper b₃ then
      some [a₁, a₂, d, b₁, b₂, b₃]
    else none
  | _ => none

/-- A greedy counted repetition `c{0,max}`: the longest run of at most `max` bytes of `c`. -/
def takeUpTo (max : Nat) (c : Nat → Bool) (s : List Nat) : List Nat := (s.takeWhile c).take max

/-- The third alternative `N[0-9]{1,5}[A-Z]{0,2}` at the start of `s`. -/
def matchNNumber : List Nat → Option (List Nat)
  | [] => none
  | b :: rest =>
    if b = 78 then
      let digits := takeUpTo 5 isDigit rest
      if 1 ≤ digits.length then
        some (78 :: digits ++ takeUpTo 2 isUpper (rest.drop digits.length))
      else none
    else none

/-- The match of `regRegex` that starts at the first byte of `s`, if any. -/
def matchHere (s : List Nat) : Option (List Nat) :=
  (matchLetterDash4 s).orElse fun _ => (matchTwoDash3 s).orElse fun _ => matchNNumber s

/-- The call `regRegex.FindString(s)`: the leftmost match, or `""`. -/
def FindString : List Nat → List Nat
  | [] => []
  | b :: rest =>
    match matchHere (b :: rest) with
    | some m => m
    | none => FindString rest

/-- The registration the monitor derives from the livery path and the tail number. -/
def deriveReg (liveryPath tailNum : GoString) : GoString :=
  let m := FindString liveryPath
  if m ≠ [] then m else tailNum

/-- A registration format, over a class of letters and a class for the two
leading characters of the second form: letter, dash, four letters; two leading
characters, dash, three letters; `N`, one to five digits, at most two letters. -/
def RegFormat (letter lead : Nat → Bool) (w : List Nat) : Prop :=
  (∃ a b₁ b₂ b₃ b₄, w = [a, 45, b₁, b₂, b₃, b₄] ∧ letter a = true ∧ letter b₁ = true
      ∧ letter b₂ = true ∧ letter b₃ = true ∧ letter b₄ = true)
  ∨ (∃ a₁ a₂ b₁ b₂ b₃, w = [a₁, a₂, 45, b₁, b₂, b₃] ∧ lead a₁ = true ∧ lead a₂ = true
      ∧ letter b₁ = true ∧ letter b₂ = true ∧ letter b₃ = true)
  ∨ (∃ ds ls, w = 78 :: ds ++ ls ∧ 1 ≤ ds.length ∧ ds.length ≤ 5
      ∧ (∀ d ∈ ds, isDigit d = true) ∧ ls.length ≤ 2 ∧ (∀ l ∈ ls, letter l = true))

/-- The formats of the pattern in the source: upper-case letters, and an
upper-case letter or a digit 1..9 for the two leading characters. -/
def CodeFormat (w : List Nat) : Prop := RegFormat isUpper isUpperOrDigit19 w

/-- A letter in the wording of the specification (either case). -/
def isLetter (b : Nat) : Bool := isUpper b || (decide (97 ≤ b) && decide (b ≤ 122))

/-- An alphanumeric character in the wording of the specification. -/
def isAlphanumeric (b : Nat) : Bool := isLetter b || isDigit b

/-- The formats as the specification words them: letters, and alphanumeric
characters for the two leading characters. -/
def SpecFormat (w : List Nat) : Prop := RegFormat isLetter isAlphanumeric w

/-! ### One tick of the monitor -/

/-- What the environment does during one tick: the datagrams arriving during
the three `GetString` calls, and whether `volanta.Send` succeeds. -/
structure TickEnv where
  duringICAO : Arrivals
  duringTailnum : Arrivals
  duringLivery : Arrivals
  sendOk : Bool

/-- The variables of the loop of `ManageAircraftUpdates`. -/
structure Monitor where
  xp : XPlaneUdp
  lastICAO : GoString

/-- The body of `for range ticker.C` in `ManageAircraftUpdates`; the second
component is the `(fullICAO, reg)` of the update handed to `volanta.Send`. -/
def tick (m : Monitor) (env : TickEnv) : Monitor × Option (GoString × GoString) :=
  let cur := currentICAOPrefix m.xp
  if cur ≠ [] ∧ cur ≠ m.lastICAO then
    let fullICAO := GetString m.xp (str "sim/aircraft/view/acf_ICAO") 40 env.duringICAO
    let tailNum := GetString fullICAO.1 (str "sim/aircraft/view/acf_tailnum") 40 env.duringTailnum
    let liveryPath :=
      GetString tailNum.1 (str "sim/aircraft/view/acf_livery_path") 255 env.duringLivery
    let reg := deriveReg liveryPath.2 tailNum.2
    ({ xp := liveryPath.1, lastICAO := nextLastICAO m.lastICAO cur fullICAO.2 env.sendOk },
      some (fullICAO.2, reg))
  else (m, none)

/-- In the cache of `xp`, element `i` of the array dataref `datarefBase` holds
the whole number `n`, a byte. -/
def HoldsByte (xp : XPlaneUdp) (datarefBase : GoString) (i n : Nat) : Prop :=
  ∃ v, GetValueSafe xp (drName datarefBase i) = some v ∧ F32.IsWhole v n ∧ n ≤ 255

/-- The prefix as the specification words it: the bytes in index order up to
but excluding the first zero byte. -/
def prefixUpToFirstZero (bytes : List Nat) : List Nat := bytes.takeWhile (fun b => b != 0)

/-- A value datagram with the records `(0, 65.0)`, `(1, 0.0)`, `(2, 66.0)`, `(3, 67.0)`. -/
def gapDatagram : List Nat :=
  str "RREF," ++ [0, 0, 0, 0, 0x00, 0x00, 0x82, 0x42] ++ [1, 0, 0, 0, 0, 0, 0, 0]
    ++ [2, 0, 0, 0, 0x00, 0x00, 0x84, 0x42] ++ [3, 0, 0, 0, 0x00, 0x00, 0x86, 0x42]

/-- The client after the initial subscription of the monitor and the decoding
of `gapDatagram`: `acf_ICAO[0..3]` hold `'A'`, `0`, `'B'`, `'C'`. -/
def gapCache : XPlaneUdp :=
  { socket := true, datarefIdx := 4,
    datarefs := [(3, str "sim/aircraft/view/acf_ICAO[3]"), (2, str "sim/aircraft/view/acf_ICAO[2]"),
                 (1, str "sim/aircraft/view/acf_ICAO[1]"), (0, str "sim/aircraft/view/acf_ICAO[0]")],
    xplaneValues := [(str "sim/aircraft/view/acf_ICAO[3]", 0x42860000),
                     (str "sim/aircraft/view/acf_ICAO[2]", 0x42840000),
                     (str "sim/aircraft/view/acf_ICAO[1]", 0),
                     (str "sim/aircraft/view/acf_ICAO[0]", 0x42820000)] }

/-- A value datagram with the records `(0, 65.0)`, `(1, 66.0)`, `(2, 67.0)`,
`(3, 0.0)`, `(4, 0.0)`. -/
def abcDatagram : List Nat :=
  str "RREF," ++ [0, 0, 0, 0, 0x00, 0x00, 0x82, 0x42] ++ [1, 0, 0, 0, 0x00, 0x00, 0x84, 0x42]
    ++ [2, 0, 0, 0, 0x00, 0x00, 0x86, 0x42] ++ [3, 0, 0, 0, 0, 0, 0, 0] ++ [4, 0, 0, 0, 0, 0, 0, 0]

/-- An environment in which nothing arrives and every `GetString` times out
after one tick. -/
def quietArrivals : Arrivals :=
  { beforeSubscribe := fun _ => [], polls := [[]], beforeUnsubscribe := fun _ => [] }

/-! ## Reachable states -/

/-- The call `AddDataRef(dataref, freq)` takes the branch that hands out a fresh index. -/
def allocates (order : List (Int × GoString)) (xp : XPlaneUdp) (dataref : GoString)
    (freq : Int) : Bool :=
  xp.socket && decide (rangeFind order dataref = -9999) && decide (freq > 0)

/-- The method `AddDataRef(dataref, freq)` with the `Listen` goroutine running
beside it.  The release path holds `valuesMutex` only around
`delete(xp.xplaneValues, dataref)` (lines 226-228) and runs
`delete(xp.datarefs, idx)` (line 229) after the unlock, so `Listen` can take the
lock in between and decode the datagrams `between` against a registry that
still resolves `idx`.  On every other path the registry and the cache are
touched by one statement at most, so a datagram decoded during the call has the
effect of one decoded before or after it, which is a step of its own. -/
def AddDataRefDuring (between : List (List Nat)) (order : List (Int × GoString))
    (xp : XPlaneUdp) (dataref : GoString) (freq : Int) : AddResult :=
  let idx := rangeFind order dataref
  if xp.socket = true ∧ idx ≠ -9999 ∧ freq = 0 then
    let unlocked :=
      listenAll { xp with xplaneValues := GoMap.delete xp.xplaneValues dataref } between
    { xp := { unlocked with datarefs := GoMap.delete unlocked.datarefs idx },
      idx := idx, request := some (rrefRequest freq idx dataref) }
  else AddDataRefIn order xp dataref freq

/-- The states reachable from `NewXPlaneUdp` by `InitSocket`, `AddDataRef` (any
name, any frequency, any visiting order of the registry) and the decoding of
received datagrams by the `Listen` goroutine, between the calls (`listen`) and
inside a release (`addDataRefDuring`, of which `addDataRef` is the case with
nothing decoded inside the call), together with the indices handed out so far
(newest first). -/
inductive Reach : XPlaneUdp → List Int → Prop
  | new : Reach NewXPlaneUdp []
  | initSocket {xp : XPlaneUdp} {hist : List Int} : Reach xp hist → Reach (InitSocket xp) hist
  | addDataRef {xp : XPlaneUdp} {hist : List Int} (order : List (Int × GoString))
      (dataref : GoString) (freq : Int) :
      Reach xp hist → order.Perm xp.datarefs →
      Reach (AddDataRefIn order xp dataref freq).xp
        (if allocates order xp dataref freq then xp.datarefIdx :: hist else hist)
  | addDataRefDuring {xp : XPlaneUdp} {hist : List Int} (between : List (List Nat))
      (order : List (Int × GoString)) (dataref : GoString) (freq : Int) :
      Reach xp hist → order.Perm xp.datarefs →
      Reach (AddDataRefDuring between order xp dataref freq).xp
        (if allocates order xp dataref freq then xp.datarefIdx :: hist else hist)
  | listen {xp : XPlaneUdp} {hist : List Int} (data : List Nat) :
      Reach xp hist → Reach (ListenStep xp data) hist

/-- Consistency of the registry and the counter, on the entries of the map. -/
structure Inv (xp : XPlaneUdp) (hist : List Int) : Prop where
  keyFun : ∀ k v₁ v₂, (k, v₁) ∈ xp.datarefs → (k, v₂) ∈ xp.datarefs → v₁ = v₂
  nameInj : ∀ k₁ k₂ n, (k₁, n) ∈ xp.datarefs → (k₂, n) ∈ xp.datarefs → k₁ = k₂
  bounds : ∀ k n, (k, n) ∈ xp.datarefs → 0 ≤ k ∧ k < xp.datarefIdx
  histLt : ∀ i ∈ hist, 0 ≤ i ∧ i < xp.datarefIdx
  histNodup : hist.Nodup
  idxNonneg : 0 ≤ xp.datarefIdx

/-- Every name that has a value-cache entry is registered. -/
def CacheWithinRegistry (xp : XPlaneUdp) : Prop :=
  ∀ n v, GetValueSafe xp n = some v → ∃ k, GoMap.get xp.datarefs k = some n

/-- A value datagram with the one record `(0, 65.0)`. -/
def raceDatagram : List Nat := str "RREF," ++ [0, 0, 0, 0, 0x00, 0x00, 0x82, 0x42]

/-- The client after `AddDataRef("a", 1)` and then `AddDataRef("a", 0)` with
`raceDatagram` decoded between the two deletes of the release. -/
def raceState : XPlaneUdp :=
  (AddDataRefDuring [raceDatagram] [(0, str "a")]
    (AddDataRef (InitSocket NewXPlaneUdp) (str "a") 1).xp (str "a") 0).xp

/-- The name `dataref` is registered at no index. -/
def Unregistered (xp : XPlaneUdp) (dataref : GoString) : Prop :=
  ∀ k, GoMap.get xp.datarefs k ≠ some dataref

/-- A client with a socket whose registry is consistent. -/
def Ready (xp : XPlaneUdp) : Prop := xp.socket = true ∧ ∃ hist, Inv xp hist

/-! # Properties -/

/-! ## Go maps -/

namespace GoMap

variable {K V : Type} [DecidableEq K]

theorem get_delete (m : List (K × V)) (k k' : K) :
    get (delete m k) k' = if k' = k then none else get m k' := by
  induction m with
  | nil => simp [delete, get]
  | cons e m ih =>
    obtain ⟨a, v⟩ := e
    unfold delete at ih ⊢
    by_cases ha : a = k
    · subst ha
      rw [List.filter_cons_of_neg (by simp), ih]
      by_cases hk : k' = a
      · simp [hk]
      · have : ¬ a = k' := fun h => hk h.symm
        simp [get, hk, this]
    · rw [List.filter_cons_of_pos (by simpa using ha)]
      simp only [get]
      by_cases hak : a = k'
      · subst hak; simp [ha]
      · simp only [hak, if_false]; exact ih

theorem get_set (m : List (K × V)) (k k' : K) (v : V) :
    get (set m k v) k' = if k' = k then some v else get m k' := by
  unfold set
  by_cases hk : k' = k
  · subst hk; simp [get]
  · have : ¬ k = k' := fun h => hk h.symm
    simp [get, this, hk, get_delete]

theorem mem_of_get {m : List (K × V)} {k : K} {v : V} (h : get m k = some v) : (k, v) ∈ m := by
  induction m with
  | nil => simp [get] at h
  | cons e m ih =>
    obtain ⟨a, w⟩ := e
    simp only [get] at h
    by_cases ha : a = k
    · subst ha; simp at h; subst h; simp
    · simp [ha] at h; exact List.mem_cons_of_mem _ (ih h)

theorem get_of_mem {m : List (K × V)} {k : K} {v : V}
    (hfun : ∀ k v₁ v₂, (k, v₁) ∈ m → (k, v₂) ∈ m → v₁ = v₂) (h : (k, v) ∈ m) :
    get m k = some v := by
  induction m with
  | nil => simp at h
  | cons e m ih =>
    obtain ⟨a, w⟩ := e
    simp only [get]
    by_cases ha : a = k
    · subst ha
      have : w = v := hfun a w v (by simp) h
      simp [this]
    · simp only [ha, if_false]
      apply ih
      · intro k v₁ v₂ h₁ h₂
        exact hfun k v₁ v₂ (List.mem_cons_of_mem _ h₁) (List.mem_cons_of_mem _ h₂)
      · rcases List.mem_cons.mp h with h | h
        · exact absurd (congrArg Prod.fst h).symm ha
        · exact h

theorem mem_delete {m : List (K × V)} {k a : K} {v : V} :
    (a, v) ∈ delete m k ↔ (a, v) ∈ m ∧ a ≠ k := by
  simp [delete, List.mem_filter]

end GoMap

/-! ## The lookup loop -/

theorem rangeFind_mem (order : List (Int × GoString)) (dataref : GoString) :
    rangeFind order dataref = -9999 ∨ (rangeFind order dataref, dataref) ∈ order := by
  induction order with
  | nil => simp [rangeFind]
  | cons e rest ih =>
    obtain ⟨k, v⟩ := e
    simp only [rangeFind]
    by_cases hv : v = dataref
    · subst hv; simp
    · simp only [hv, if_false]
      rcases ih with h | h
      · exact Or.inl h
      · exact Or.inr (List.mem_cons_of_mem _ h)

theorem rangeFind_of_mem {order : List (Int × GoString)} {dataref : GoString} {k : Int}
    (h : (k, dataref) ∈ order) : (rangeFind order dataref, dataref) ∈ order := by
  induction order with
  | nil => simp at h
  | cons e rest ih =>
    obtain ⟨a, v⟩ := e
    simp only [rangeFind]
    by_cases hv : v = dataref
    · subst hv; simp
    · simp only [hv, if_false]
      rcases List.mem_cons.mp h with h | h
      · exact absurd (congrArg Prod.snd h).symm hv
      · exact List.mem_cons_of_mem _ (ih h)

theorem rangeFind_registered {xp : XPlaneUdp} {hist : List Int} {order : List (Int × GoString)}
    {dataref : GoString} {k : Int} (hinv : Inv xp hist) (hp : order.Perm xp.datarefs)
    (hk : GoMap.get xp.datarefs k = some dataref) :
    rangeFind order dataref = k ∧ k ≠ -9999 := by
  have hm : (k, dataref) ∈ xp.datarefs := GoMap.mem_of_get hk
  have h₁ : (rangeFind order dataref, dataref) ∈ xp.datarefs :=
    hp.mem_iff.mp (rangeFind_of_mem (hp.mem_iff.mpr hm))
  have hb := (hinv.bounds k dataref hm).1
  exact ⟨hinv.nameInj _ _ _ h₁ hm, by omega⟩

theorem rangeFind_unregistered {xp : XPlaneUdp} {hist : List Int}
    {order : List (Int × GoString)} {dataref : GoString} (hinv : Inv xp hist)
    (hp : order.Perm xp.datarefs) (hk : ∀ k, GoMap.get xp.datarefs k ≠ some dataref) :
    rangeFind order dataref = -9999 := by
  rcases rangeFind_mem order dataref with h | h
  · exact h
  · exact absurd (GoMap.get_of_mem hinv.keyFun (hp.mem_iff.mp h)) (hk _)

/-! ## The four cases of `AddDataRef` -/

theorem addDataRefIn_registered {xp : XPlaneUdp} {hist : List Int}
    {order : List (Int × GoString)} {dataref : GoString} {k : Int} (freq : Int)
    (hinv : Inv xp hist) (hp : order.Perm xp.datarefs) (hs : xp.socket = true)
    (hk : GoMap.get xp.datarefs k = some dataref) :
    AddDataRefIn order xp dataref freq =
      if freq = 0 then
        { xp := { xp with xplaneValues := GoMap.delete xp.xplaneValues dataref,
                          datarefs := GoMap.delete xp.datarefs k },
          idx := k, request := some (rrefRequest freq k dataref) }
      else { xp := xp, idx := k, request := some (rrefRequest freq k dataref) } := by
  obtain ⟨h₁, h₂⟩ := rangeFind_registered hinv hp hk
  simp only [AddDataRefIn, hs, h₁]
  simp [h₂]

theorem addDataRefIn_unregistered {xp : XPlaneUdp} {hist : List Int}
    {order : List (Int × GoString)} {dataref : GoString} (freq : Int)
    (hinv : Inv xp hist) (hp : order.Perm xp.datarefs) (hs : xp.socket = true)
    (hk : ∀ k, GoMap.get xp.datarefs k ≠ some dataref) :
    AddDataRefIn order xp dataref freq =
      if freq > 0 then
        { xp := { xp with datarefs := GoMap.set xp.datarefs xp.datarefIdx dataref,
                          datarefIdx := xp.datarefIdx + 1 },
          idx := xp.datarefIdx, request := some (rrefRequest freq xp.datarefIdx dataref) }
      else { xp := xp, idx := -9999, request := some (rrefRequest freq (-9999) dataref) } := by
  have h₁ := rangeFind_unregistered hinv hp hk
  simp only [AddDataRefIn, hs, h₁]
  simp

/-- The visiting order of `range` does not matter once the registry is
consistent: every order gives the result of the stored order. -/
theorem addDataRefIn_order {xp : XPlaneUdp} {hist : List Int}
    (order : List (Int × GoString)) (dataref : GoString) (freq : Int)
    (hinv : Inv xp hist) (hp : order.Perm xp.datarefs) :
    AddDataRefIn order xp dataref freq = AddDataRef xp dataref freq := by
  unfold AddDataRef
  by_cases hs : xp.socket = true
  · by_cases hreg : ∃ k, GoMap.get xp.datarefs k = some dataref
    · obtain ⟨k, hk⟩ := hreg
      rw [addDataRefIn_registered freq hinv hp hs hk,
        addDataRefIn_registered freq hinv (List.Perm.refl _) hs hk]
    · have hk : ∀ k, GoMap.get xp.datarefs k ≠ some dataref := fun k hk => hreg ⟨k, hk⟩
      rw [addDataRefIn_unregistered freq hinv hp hs hk,
        addDataRefIn_unregistered freq hinv (List.Perm.refl _) hs hk]
  · have hs' : xp.socket = false := by simpa using hs
    simp [AddDataRefIn, hs']

theorem allocates_registered {xp : XPlaneUdp} {hist : List Int}
    {order : List (Int × GoString)} {dataref : GoString} {k : Int} (freq : Int)
    (hinv : Inv xp hist) (hp : order.Perm xp.datarefs)
    (hk : GoMap.get xp.datarefs k = some dataref) :
    allocates order xp dataref freq = false := by
  obtain ⟨h₁, h₂⟩ := rangeFind_registered hinv hp hk
  simp [allocates, h₁, h₂]

theorem allocates_unregistered {xp : XPlaneUdp} {hist : List Int}
    {order : List (Int × GoString)} {dataref : GoString} (freq : Int)
    (hinv : Inv xp hist) (hp : order.Perm xp.datarefs) (hs : xp.socket = true)
    (hk : ∀ k, GoMap.get xp.datarefs k ≠ some dataref) :
    allocates order xp dataref freq = decide (freq > 0) := by
  have h₁ := rangeFind_unregistered hinv hp hk
  simp [allocates, h₁, hs]

/-! ## What the steps leave alone -/

theorem storeRecord_frame (xp : XPlaneUdp) (idx : Int) (value : F32) :
    (storeRecord xp idx value).datarefs = xp.datarefs
    ∧ (storeRecord xp idx value).datarefIdx = xp.datarefIdx
    ∧ (storeRecord xp idx value).socket = xp.socket := by
  unfold storeRecord
  cases GoMap.get xp.datarefs idx <;> simp

theorem decodeRecords_frame (valuesData : List Nat) (is : List Nat) :
    ∀ xp : XPlaneUdp,
      (is.foldl (decodeRecord valuesData) xp).datarefs = xp.datarefs
      ∧ (is.foldl (decodeRecord valuesData) xp).datarefIdx = xp.datarefIdx
      ∧ (is.foldl (decodeRecord valuesData) xp).socket = xp.socket := by
  induction is with
  | nil => intro xp; exact ⟨rfl, rfl, rfl⟩
  | cons i is ih =>
    intro xp
    obtain ⟨h₁, h₂, h₃⟩ := ih (decodeRecord valuesData xp i)
    obtain ⟨g₁, g₂, g₃⟩ := storeRecord_frame xp
      (getInt32LE ((valuesData.drop (i * 8)).take 8) 0)
      (getUint32LE ((valuesData.drop (i * 8)).take 8) 4)
    exact ⟨h₁.trans g₁, h₂.trans g₂, h₃.trans g₃⟩

theorem listenStep_frame (xp : XPlaneUdp) (data : List Nat) :
    (ListenStep xp data).datarefs = xp.datarefs
    ∧ (ListenStep xp data).datarefIdx = xp.datarefIdx
    ∧ (ListenStep xp data).socket = xp.socket := by
  unfold ListenStep
  split
  · exact ⟨rfl, rfl, rfl⟩
  · split
    · exact decodeRecords_frame _ _ _
    · exact ⟨rfl, rfl, rfl⟩

theorem listenAll_frame (batch : List (List Nat)) :
    ∀ xp : XPlaneUdp,
      (listenAll xp batch).datarefs = xp.datarefs
      ∧ (listenAll xp batch).datarefIdx = xp.datarefIdx
      ∧ (listenAll xp batch).socket = xp.socket := by
  induction batch with
  | nil => intro xp; exact ⟨rfl, rfl, rfl⟩
  | cons d batch ih =>
    intro xp
    obtain ⟨h₁, h₂, h₃⟩ := ih (ListenStep xp d)
    obtain ⟨g₁, g₂, g₃⟩ := listenStep_frame xp d
    exact ⟨h₁.trans g₁, h₂.trans g₂, h₃.trans g₃⟩

/-- With nothing decoded inside the call, `AddDataRefDuring` is `AddDataRefIn`. -/
theorem addDataRefDuring_nil (order : List (Int × GoString)) (xp : XPlaneUdp)
    (dataref : GoString) (freq : Int) :
    AddDataRefDuring [] order xp dataref freq = AddDataRefIn order xp dataref freq := by
  unfold AddDataRefDuring
  dsimp only
  split
  · rename_i h
    obtain ⟨hs, hidx, hf⟩ := h
    simp [AddDataRefIn, hs, hidx, hf, listenAll]
  · rfl

/-- What is decoded inside a release changes the cache only: the registry, the
counter, the socket, the index and the request are those of the plain call. -/
theorem addDataRefDuring_frame (between : List (List Nat)) (order : List (Int × GoString))
    (xp : XPlaneUdp) (dataref : GoString) (freq : Int) :
    (AddDataRefDuring between order xp dataref freq).xp.datarefs
        = (AddDataRefIn order xp dataref freq).xp.datarefs
    ∧ (AddDataRefDuring between order xp dataref freq).xp.datarefIdx
        = (AddDataRefIn order xp dataref freq).xp.datarefIdx
    ∧ (AddDataRefDuring between order xp dataref freq).xp.socket
        = (AddDataRefIn order xp dataref freq).xp.socket
    ∧ (AddDataRefDuring between order xp dataref freq).idx
        = (AddDataRefIn order xp dataref freq).idx
    ∧ (AddDataRefDuring between order xp dataref freq).request
        = (AddDataRefIn order xp dataref freq).request := by
  unfold AddDataRefDuring
  dsimp only
  split
  · rename_i h
    obtain ⟨hs, hidx, hf⟩ := h
    obtain ⟨h₁, h₂, h₃⟩ := listenAll_frame between
      { xp with xplaneValues := GoMap.delete xp.xplaneValues dataref }
    have hin : AddDataRefIn order xp dataref freq =
        { xp := { xp with xplaneValues := GoMap.delete xp.xplaneValues dataref,
                          datarefs := GoMap.delete xp.datarefs (rangeFind order dataref) },
          idx := rangeFind order dataref,
          request := some (rrefRequest freq (rangeFind order dataref) dataref) } := by
      simp [AddDataRefIn, hs, hidx, hf]
    rw [hin]
    refine ⟨?_, h₂, h₃, rfl, rfl⟩
    show GoMap.delete (listenAll _ between).datarefs _ = GoMap.delete xp.datarefs _
    rw [h₁]
  · exact ⟨rfl, rfl, rfl, rfl, rfl⟩

/-! ## Preservation of registry consistency -/

/-- Registry consistency looks at the registry and the counter only. -/
theorem inv_transfer {xp xp' : XPlaneUdp} {hist : List Int} (h : Inv xp hist)
    (h₁ : xp'.datarefs = xp.datarefs) (h₂ : xp'.datarefIdx = xp.datarefIdx) :
    Inv xp' hist := by
  refine ⟨?_, ?_, ?_, ?_, h.histNodup, ?_⟩
  · rw [h₁]; exact h.keyFun
  · rw [h₁]; exact h.nameInj
  · rw [h₁, h₂]; exact h.bounds
  · rw [h₂]; exact h.histLt
  · rw [h₂]; exact h.idxNonneg


theorem inv_new : Inv NewXPlaneUdp [] := by
  constructor <;> simp [NewXPlaneUdp, GoMap.get]

theorem inv_initSocket {xp : XPlaneUdp} {hist : List Int} (h : Inv xp hist) :
    Inv (InitSocket xp) hist :=
  ⟨h.keyFun, h.nameInj, h.bounds, h.histLt, h.histNodup, h.idxNonneg⟩

theorem inv_release {xp : XPlaneUdp} {hist : List Int} {dataref : GoString} {k : Int}
    (h : Inv xp hist) (_hk : GoMap.get xp.datarefs k = some dataref) :
    Inv { xp with xplaneValues := GoMap.delete xp.xplaneValues dataref,
                  datarefs := GoMap.delete xp.datarefs k } hist := by
  refine ⟨?_, ?_, ?_, h.histLt, h.histNodup, h.idxNonneg⟩
  · intro a v₁ v₂ h₁ h₂
    exact h.keyFun a v₁ v₂ (GoMap.mem_delete.mp h₁).1 (GoMap.mem_delete.mp h₂).1
  · intro k₁ k₂ n h₁ h₂
    exact h.nameInj k₁ k₂ n (GoMap.mem_delete.mp h₁).1 (GoMap.mem_delete.mp h₂).1
  · intro a n h₁
    exact h.bounds a n (GoMap.mem_delete.mp h₁).1

theorem inv_allocate {xp : XPlaneUdp} {hist : List Int} {dataref : GoString}
    (h : Inv xp hist) (hk : ∀ k, GoMap.get xp.datarefs k ≠ some dataref) :
    Inv { xp with datarefs := GoMap.set xp.datarefs xp.datarefIdx dataref,
                  datarefIdx := xp.datarefIdx + 1 } (xp.datarefIdx :: hist) := by
  have hmem : ∀ a n, (a, n) ∈ GoMap.set xp.datarefs xp.datarefIdx dataref →
      (a = xp.datarefIdx ∧ n = dataref) ∨ ((a, n) ∈ xp.datarefs ∧ a ≠ xp.datarefIdx) := by
    intro a n hm
    rcases List.mem_cons.mp hm with hm | hm
    · left; simpa using hm
    · right; exact GoMap.mem_delete.mp hm
  have hold : ∀ a n, (a, n) ∈ xp.datarefs → a < xp.datarefIdx ∧ n ≠ dataref := by
    intro a n hm
    refine ⟨(h.bounds a n hm).2, ?_⟩
    intro hn
    subst hn
    exact hk a (GoMap.get_of_mem h.keyFun hm)
  have hpos : 0 ≤ xp.datarefIdx := h.idxNonneg
  refine ⟨?_, ?_, ?_, ?_, ?_, ?_⟩
  · intro a v₁ v₂ h₁ h₂
    rcases hmem a v₁ h₁ with ⟨ea, e₁⟩ | ⟨m₁, n₁⟩ <;> rcases hmem a v₂ h₂ with ⟨eb, e₂⟩ | ⟨m₂, n₂⟩
    · rw [e₁, e₂]
    · exact absurd ea n₂
    · exact absurd eb n₁
    · exact h.keyFun a v₁ v₂ m₁ m₂
  · intro k₁ k₂ n h₁ h₂
    rcases hmem k₁ n h₁ with ⟨e₁, d₁⟩ | ⟨m₁, _⟩ <;> rcases hmem k₂ n h₂ with ⟨e₂, d₂⟩ | ⟨m₂, _⟩
    · rw [e₁, e₂]
    · exact absurd d₁ (hold k₂ n m₂).2
    · exact absurd d₂ (hold k₁ n m₁).2
    · exact h.nameInj k₁ k₂ n m₁ m₂
  · intro a n hm
    show 0 ≤ a ∧ a < xp.datarefIdx + 1
    rcases hmem a n hm with ⟨e, _⟩ | ⟨m, _⟩
    · omega
    · have := h.bounds a n m
      omega
  · intro i hi
    show 0 ≤ i ∧ i < xp.datarefIdx + 1
    rcases List.mem_cons.mp hi with hi | hi
    · omega
    · have := h.histLt i hi
      omega
  · refine List.nodup_cons.mpr ⟨?_, h.histNodup⟩
    intro hi
    have := (h.histLt _ hi).2
    omega
  · show 0 ≤ xp.datarefIdx + 1
    omega

theorem inv_addDataRefIn {xp : XPlaneUdp} {hist : List Int} (order : List (Int × GoString))
    (dataref : GoString) (freq : Int) (h : Inv xp hist) (hp : order.Perm xp.datarefs) :
    Inv (AddDataRefIn order xp dataref freq).xp
      (if allocates order xp dataref freq then xp.datarefIdx :: hist else hist) := by
  by_cases hs : xp.socket = true
  · by_cases hreg : ∃ k, GoMap.get xp.datarefs k = some dataref
    · obtain ⟨k, hk⟩ := hreg
      rw [addDataRefIn_registered freq h hp hs hk, allocates_registered freq h hp hk]
      by_cases hf : freq = 0
      · simpa [hf] using inv_release h hk
      · simpa [hf] using h
    · have hk : ∀ k, GoMap.get xp.datarefs k ≠ some dataref := fun k hk => hreg ⟨k, hk⟩
      rw [addDataRefIn_unregistered freq h hp hs hk, allocates_unregistered freq h hp hs hk]
      by_cases hf : freq > 0
      · simpa [hf] using inv_allocate h hk
      · simpa [hf] using h
  · have hs' : xp.socket = false := by simpa using hs
    simpa [AddDataRefIn, allocates, hs'] using h

theorem inv_storeRecord {xp : XPlaneUdp} {hist : List Int} (idx : Int) (value : F32)
    (h : Inv xp hist) : Inv (storeRecord xp idx value) hist := by
  unfold storeRecord
  cases hget : GoMap.get xp.datarefs idx with
  | none => simpa using h
  | some name => exact ⟨h.keyFun, h.nameInj, h.bounds, h.histLt, h.histNodup, h.idxNonneg⟩

theorem inv_decodeRecords {hist : List Int} (valuesData : List Nat) (is : List Nat) :
    ∀ xp : XPlaneUdp, Inv xp hist → Inv (is.foldl (decodeRecord valuesData) xp) hist := by
  induction is with
  | nil => intro xp h; exact h
  | cons i is ih => intro xp h; exact ih _ (inv_storeRecord _ _ h)

theorem inv_listenStep {xp : XPlaneUdp} {hist : List Int} (data : List Nat)
    (h : Inv xp hist) : Inv (ListenStep xp data) hist := by
  unfold ListenStep
  split
  · exact h
  · split
    · exact inv_decodeRecords _ _ _ h
    · exact h

theorem reach_inv {xp : XPlaneUdp} {hist : List Int} (h : Reach xp hist) : Inv xp hist := by
  induction h with
  | new => exact inv_new
  | initSocket _ ih => exact inv_initSocket ih
  | addDataRef order dataref freq _ hp ih => exact inv_addDataRefIn order dataref freq ih hp
  | addDataRefDuring between order dataref freq _ hp ih =>
    exact inv_transfer (inv_addDataRefIn order dataref freq ih hp)
      (addDataRefDuring_frame between order _ dataref freq).1
      (addDataRefDuring_frame between order _ dataref freq).2.1
  | listen data _ ih => exact inv_listenStep data ih

theorem addDataRefIn_socket (order : List (Int × GoString)) (xp : XPlaneUdp)
    (dataref : GoString) (freq : Int) :
    (AddDataRefIn order xp dataref freq).xp.socket = xp.socket := by
  unfold AddDataRefIn
  split
  · rfl
  · dsimp only
    split
    · split <;> rfl
    · split <;> rfl

/-- The four cases of `AddDataRef` on the client, with the pair `(freq, idx)`
handed to the encoder of the request. -/
theorem addDataRefIn_table (xp : XPlaneUdp) (hist : List Int)
    (order : List (Int × GoString)) (dataref : GoString) (freq : Int)
    (hr : Reach xp hist) (hs : xp.socket = true) (hp : order.Perm xp.datarefs)
    (hf : 0 ≤ freq) :
    (0 < freq → (∀ k, GoMap.get xp.datarefs k ≠ some dataref) →
      (∀ k, GoMap.get (AddDataRefIn order xp dataref freq).xp.datarefs k =
          if k = xp.datarefIdx then some dataref else GoMap.get xp.datarefs k)
      ∧ (AddDataRefIn order xp dataref freq).xp.datarefIdx = xp.datarefIdx + 1
      ∧ (AddDataRefIn order xp dataref freq).xp.xplaneValues = xp.xplaneValues
      ∧ (AddDataRefIn order xp dataref freq).idx = xp.datarefIdx
      ∧ (AddDataRefIn order xp dataref freq).request =
          some (rrefRequest freq xp.datarefIdx dataref))
    ∧ (∀ k, 0 < freq → GoMap.get xp.datarefs k = some dataref →
      (AddDataRefIn order xp dataref freq).xp = xp
      ∧ (AddDataRefIn order xp dataref freq).idx = k
      ∧ (AddDataRefIn order xp dataref freq).request = some (rrefRequest freq k dataref))
    ∧ (∀ (order₂ : List (Int × GoString)) (freq₂ : Int), 0 < freq → 0 < freq₂ →
      order₂.Perm (AddDataRefIn order xp dataref freq).xp.datarefs →
      (AddDataRefIn order₂ (AddDataRefIn order xp dataref freq).xp dataref freq₂).idx =
        (AddDataRefIn order xp dataref freq).idx)
    ∧ (∀ k, freq = 0 → GoMap.get xp.datarefs k = some dataref →
      (∀ k', GoMap.get (AddDataRefIn order xp dataref freq).xp.datarefs k' =
          if k' = k then none else GoMap.get xp.datarefs k')
      ∧ (∀ k', GoMap.get (AddDataRefIn order xp dataref freq).xp.datarefs k' ≠ some dataref)
      ∧ (∀ n, GetValueSafe (AddDataRefIn order xp dataref freq).xp n =
          if n = dataref then none else GetValueSafe xp n)
      ∧ (AddDataRefIn order xp dataref freq).xp.datarefIdx = xp.datarefIdx
      ∧ (AddDataRefIn order xp dataref freq).request = some (rrefRequest 0 k dataref))
    ∧ (freq = 0 → (∀ k, GoMap.get xp.datarefs k ≠ some dataref) →
      (AddDataRefIn order xp dataref freq).xp = xp
      ∧ (AddDataRefIn order xp dataref freq).request =
          some (rrefRequest 0 (-9999) dataref)) := by
  have hinv := reach_inv hr
  have hfirst : 0 < freq →
      GoMap.get (AddDataRefIn order xp dataref freq).xp.datarefs
        (AddDataRefIn order xp dataref freq).idx = some dataref := by
    intro hpos
    by_cases hreg : ∃ k, GoMap.get xp.datarefs k = some dataref
    · obtain ⟨k, hk⟩ := hreg
      rw [addDataRefIn_registered freq hinv hp hs hk]
      simpa [ne_of_gt hpos] using hk
    · have hk : ∀ k, GoMap.get xp.datarefs k ≠ some dataref := fun k hk => hreg ⟨k, hk⟩
      rw [addDataRefIn_unregistered freq hinv hp hs hk]
      simp [hpos, GoMap.get_set]
  refine ⟨?_, ?_, ?_, ?_, ?_⟩
  · intro hpos hk
    rw [addDataRefIn_unregistered freq hinv hp hs hk]
    simp [hpos, GoMap.get_set]
  · intro k hpos hk
    rw [addDataRefIn_registered freq hinv hp hs hk]
    simp [ne_of_gt hpos]
  · intro order₂ freq₂ hpos hpos₂ hp₂
    have hinv₂ := inv_addDataRefIn order dataref freq hinv hp
    have hs₂ : (AddDataRefIn order xp dataref freq).xp.socket = true := by
      rw [addDataRefIn_socket]; exact hs
    rw [addDataRefIn_registered freq₂ hinv₂ hp₂ hs₂ (hfirst hpos)]
    simp [ne_of_gt hpos₂]
  · intro k hzero hk
    subst hzero
    rw [addDataRefIn_registered 0 hinv hp hs hk]
    simp only [↓reduceIte]
    refine ⟨fun k' => GoMap.get_delete _ _ _, ?_, fun n => GoMap.get_delete _ _ _,
      by first | rfl | trivial, by first | rfl | trivial⟩
    intro k' hk'
    have hk' : GoMap.get (GoMap.delete xp.datarefs k) k' = some dataref := hk'
    rw [GoMap.get_delete] at hk'
    by_cases hkk : k' = k
    · simp [hkk] at hk'
    · simp only [hkk, if_false] at hk'
      exact hkk (hinv.nameInj k' k dataref (GoMap.mem_of_get hk') (GoMap.mem_of_get hk))
  · intro hzero hk
    subst hzero
    rw [addDataRefIn_unregistered 0 hinv hp hs hk]
    simp

/-! ## The subscribe request on the wire -/

theorem byteAt_append (pre l : List Nat) (i : Nat) :
    byteAt (pre ++ l) (pre.length + i) = byteAt l i := by
  induction pre with
  | nil => simp
  | cons a pre ih =>
    have : (a :: pre).length + i = (pre.length + i) + 1 := by simp; omega
    rw [this]
    simpa [byteAt] using ih

theorem toInt32_of_range {x : Int} (hlo : -(2 ^ 31) ≤ x) (hhi : x < 2 ^ 31) :
    toInt32 x = x := by
  unfold toInt32
  omega

/-- The four bytes of `int32(x)` read back as the wrapped value. -/
theorem getInt32LE_putInt32LE_wrap (pre post : List Nat) (x : Int) :
    getInt32LE (pre ++ putInt32LE x ++ post) pre.length = toInt32 x := by
  have h0 := byteAt_append pre (putInt32LE x ++ post) 0
  have h1 := byteAt_append pre (putInt32LE x ++ post) 1
  have h2 := byteAt_append pre (putInt32LE x ++ post) 2
  have h3 := byteAt_append pre (putInt32LE x ++ post) 3
  simp only [getInt32LE, getUint32LE, List.append_assoc]
  rw [← Nat.add_zero pre.length]
  simp only [Nat.add_assoc, Nat.zero_add, h0, h1, h2, h3]
  simp only [putInt32LE]
  have hlo : -(2 ^ 31) ≤ toInt32 x := by unfold toInt32; omega
  have hhi : toInt32 x < 2 ^ 31 := by unfold toInt32; omega
  generalize toInt32 x = y at hlo hhi ⊢
  generalize hu : (y % 2 ^ 32).toNat = u
  have hu' : (u : Int) = y % 2 ^ 32 := by rw [← hu]; omega
  simp only [byteAt, List.cons_append, List.getD_cons_zero, List.getD_cons_succ]
  split <;> omega

theorem getInt32LE_putInt32LE (pre post : List Nat) (x : Int)
    (hlo : -(2 ^ 31) ≤ x) (hhi : x < 2 ^ 31) :
    getInt32LE (pre ++ putInt32LE x ++ post) pre.length = x := by
  have hx : toInt32 x = x := by unfold toInt32; omega
  have h0 := byteAt_append pre (putInt32LE x ++ post) 0
  have h1 := byteAt_append pre (putInt32LE x ++ post) 1
  have h2 := byteAt_append pre (putInt32LE x ++ post) 2
  have h3 := byteAt_append pre (putInt32LE x ++ post) 3
  simp only [getInt32LE, getUint32LE, List.append_assoc]
  rw [← Nat.add_zero pre.length] 
  simp only [Nat.add_assoc, Nat.zero_add, h0, h1, h2, h3]
  simp only [putInt32LE, hx]
  generalize hu : (x % 2 ^ 32).toNat = u
  have hu' : (u : Int) = x % 2 ^ 32 := by rw [← hu]; omega
  simp only [byteAt, List.cons_append, List.getD_cons_zero, List.getD_cons_succ]
  split <;> omega

theorem stripTrailingZeros_pad (n : List Nat) (k : Nat) (h : ∀ b ∈ n, b ≠ 0) :
    stripTrailingZeros (n ++ List.replicate k 0) = n := by
  unfold stripTrailingZeros
  rw [List.reverse_append, List.reverse_replicate]
  have h1 : ∀ (l : List Nat), List.dropWhile (fun b => b == 0) (List.replicate k 0 ++ l)
      = List.dropWhile (fun b => b == 0) l := by
    intro l
    induction k with
    | zero => simp
    | succ k ih => simp [List.replicate_succ, List.dropWhile_cons, ih]
  rw [h1]
  have h2 : ∀ (l : List Nat), (∀ b ∈ l, b ≠ 0) → List.dropWhile (fun b => b == 0) l = l := by
    intro l hl
    cases l with
    | nil => rfl
    | cons a l => simp [List.dropWhile_cons, hl a (by simp)]
  rw [h2 _ (by intro b hb; exact h b (List.mem_reverse.mp hb))]
  simp

theorem putInt32LE_length (x : Int) : (putInt32LE x).length = 4 := rfl

theorem nameField_length (dataref : GoString) : (nameField dataref).length = 400 := by
  simp only [nameField, List.length_append, List.length_take, List.length_replicate]
  omega

/-- C2: for a frequency and an index in the `int32` range and a name of at
most 400 bytes without a zero byte, the datagram `AddDataRef` builds is 413
bytes long and decodes per the wire format (bytes 5..8 and 9..12 as
little-endian `int32`, bytes 13..412 without their trailing zero bytes) back to
the frequency, the index and the name. -/
theorem rrefRequest_roundtrip (freq idx : Int) (dataref : GoString)
    (hf₁ : -(2 ^ 31) ≤ freq) (hf₂ : freq < 2 ^ 31)
    (hi₁ : -(2 ^ 31) ≤ idx) (hi₂ : idx < 2 ^ 31)
    (hlen : dataref.length ≤ 400) (hz : ∀ b ∈ dataref, b ≠ 0) :
    (rrefRequest freq idx dataref).length = 413
    ∧ (rrefRequest freq idx dataref).take 5 = str "RREF\x00"
    ∧ getInt32LE (rrefRequest freq idx dataref) 5 = freq
    ∧ getInt32LE (rrefRequest freq idx dataref) 9 = idx
    ∧ stripTrailingZeros (((rrefRequest freq idx dataref).drop 13).take 400) = dataref := by
  refine ⟨?_, ?_, ?_, ?_, ?_⟩
  · simp [rrefRequest, putInt32LE_length, nameField_length]
  · simp only [rrefRequest, List.append_assoc]
    have h : List.take 5 ([82, 82, 69, 70, 0] ++
        (putInt32LE freq ++ (putInt32LE idx ++ nameField dataref))) = [82, 82, 69, 70, 0] :=
      List.take_left' rfl
    rw [h]
    decide
  · have h := getInt32LE_putInt32LE [82, 82, 69, 70, 0] (putInt32LE idx ++ nameField dataref)
      freq hf₁ hf₂
    rw [show rrefRequest freq idx dataref =
      [82, 82, 69, 70, 0] ++ putInt32LE freq ++ (putInt32LE idx ++ nameField dataref) from by
        simp only [rrefRequest, List.append_assoc]]
    exact h
  · have h := getInt32LE_putInt32LE ([82, 82, 69, 70, 0] ++ putInt32LE freq)
      (nameField dataref) idx hi₁ hi₂
    exact h
  · have h13 : ([82, 82, 69, 70, 0] ++ putInt32LE freq ++ putInt32LE idx).length = 13 := rfl
    unfold rrefRequest
    rw [List.drop_left' h13, List.take_of_length_le (le_of_eq (nameField_length dataref))]
    unfold nameField
    rw [List.take_of_length_le hlen]
    exact stripTrailingZeros_pad dataref _ hz

/-- Witness of C2: the request for `"foo"` at 10 Hz and index 3 decodes back. -/
theorem rrefRequest_roundtrip_witness :
    getInt32LE (rrefRequest 10 3 (str "foo")) 5 = 10
    ∧ getInt32LE (rrefRequest 10 3 (str "foo")) 9 = 3
    ∧ stripTrailingZeros (((rrefRequest 10 3 (str "foo")).drop 13).take 400) = str "foo" :=
  (rrefRequest_roundtrip 10 3 (str "foo") (by decide) (by decide) (by decide) (by decide)
    (by decide) (by decide)).2.2

/-! ## The four cases with the request on the wire -/

theorem rrefRequest_carries (freq idx : Int) (dataref : GoString) :
    Carries (some (rrefRequest freq idx dataref)) (toInt32 freq) (toInt32 idx) dataref := by
  refine ⟨_, rfl, ?_, ?_, ?_, ?_, ?_⟩
  · simp [rrefRequest, putInt32LE_length, nameField_length]
  · simp only [rrefRequest, List.append_assoc]
    have h : List.take 5 ([82, 82, 69, 70, 0] ++
        (putInt32LE freq ++ (putInt32LE idx ++ nameField dataref))) = [82, 82, 69, 70, 0] :=
      List.take_left' rfl
    rw [h]
    decide
  · have h := getInt32LE_putInt32LE_wrap [82, 82, 69, 70, 0]
      (putInt32LE idx ++ nameField dataref) freq
    rw [show rrefRequest freq idx dataref =
      [82, 82, 69, 70, 0] ++ putInt32LE freq ++ (putInt32LE idx ++ nameField dataref) from by
        simp only [rrefRequest, List.append_assoc]]
    exact h
  · exact getInt32LE_putInt32LE_wrap ([82, 82, 69, 70, 0] ++ putInt32LE freq)
      (nameField dataref) idx
  · have h13 : ([82, 82, 69, 70, 0] ++ putInt32LE freq ++ putInt32LE idx).length = 13 := rfl
    unfold rrefRequest
    rw [List.drop_left' h13]
    rfl

theorem carries_of_request {request : Option (List Nat)} {freq idx : Int}
    {dataref : GoString} (h : request = some (rrefRequest freq idx dataref)) :
    Carries request (toInt32 freq) (toInt32 idx) dataref
    ∧ (-(2 ^ 31) ≤ freq → freq < 2 ^ 31 → -(2 ^ 31) ≤ idx → idx < 2 ^ 31 →
        Carries request freq idx dataref) := by
  rw [h]
  refine ⟨rrefRequest_carries freq idx dataref, ?_⟩
  intro h₁ h₂ h₃ h₄
  have hc := rrefRequest_carries freq idx dataref
  rw [toInt32_of_range h₁ h₂, toInt32_of_range h₃ h₄] at hc
  exact hc

/-- C1, as stated, fails: on the freshly initialised client `AddDataRef("a",
2^32)` takes case (i) and registers `"a"` at index 0, but the request carries
the frequency 0 (`int32(freq)`), not `2^32`: on the wire it is the request of
`(0, 0)`. -/
theorem addDataRef_wide_frequency_counterexample :
    Reach (InitSocket NewXPlaneUdp) []
    ∧ (InitSocket NewXPlaneUdp).socket = true
    ∧ (0 : Int) < 2 ^ 32
    ∧ (∀ k, GoMap.get (InitSocket NewXPlaneUdp).datarefs k ≠ some (str "a"))
    ∧ GoMap.get (AddDataRefIn [] (InitSocket NewXPlaneUdp) (str "a") (2 ^ 32)).xp.datarefs 0
        = some (str "a")
    ∧ Carries (AddDataRefIn [] (InitSocket NewXPlaneUdp) (str "a") (2 ^ 32)).request 0 0
        (str "a")
    ∧ ¬ Carries (AddDataRefIn [] (InitSocket NewXPlaneUdp) (str "a") (2 ^ 32)).request
        (2 ^ 32) 0 (str "a") := by
  have hreq : (AddDataRefIn [] (InitSocket NewXPlaneUdp) (str "a") (2 ^ 32)).request
      = some (rrefRequest (2 ^ 32) 0 (str "a")) := by
    simp [AddDataRefIn, InitSocket, NewXPlaneUdp, rangeFind]
  have hc : Carries (AddDataRefIn [] (InitSocket NewXPlaneUdp) (str "a") (2 ^ 32)).request 0 0
      (str "a") := by
    have h := (carries_of_request hreq).1
    rw [show toInt32 (2 ^ 32) = 0 from by decide, show toInt32 0 = 0 from by decide] at h
    exact h
  refine ⟨.initSocket .new, rfl, by decide, ?_, by decide, hc, ?_⟩
  · intro k
    simp [InitSocket, NewXPlaneUdp, GoMap.get]
  · rintro ⟨req, hreq', _, _, hfreq, _⟩
    obtain ⟨req₀, hreq₀, _, _, hfreq₀, _⟩ := hc
    rw [hreq₀] at hreq'
    have : req₀ = req := Option.some.inj hreq'
    subst this
    rw [hfreq₀] at hfreq
    exact absurd hfreq (by decide)

/-- Every counter value is reached with an empty registry: subscribe a name
and release it again, as `GetString` does. -/
theorem reach_counter (n : Nat) :
    ∃ xp hist, Reach xp hist ∧ xp.socket = true ∧ xp.datarefs = []
      ∧ xp.datarefIdx = (n : Int) := by
  induction n with
  | zero => exact ⟨InitSocket NewXPlaneUdp, [], .initSocket .new, rfl, rfl, rfl⟩
  | succ n ih =>
    obtain ⟨xp, hist, hr, hs, hreg, hidx⟩ := ih
    have h₁ := Reach.addDataRef xp.datarefs (str "a") 1 hr (List.Perm.refl _)
    have h₂ := Reach.addDataRef (AddDataRefIn xp.datarefs xp (str "a") 1).xp.datarefs
      (str "a") 0 h₁ (List.Perm.refl _)
    have hne : ¬ ((n : Int) = -9999) := by omega
    refine ⟨_, _, h₂, ?_, ?_, ?_⟩
    · simp [AddDataRefIn, hs, hreg, hidx, rangeFind, GoMap.set, GoMap.delete, hne]
    · simp [AddDataRefIn, hs, hreg, hidx, rangeFind, GoMap.set, GoMap.delete, hne]
    · simp [AddDataRefIn, hs, hreg, hidx, rangeFind, GoMap.set, GoMap.delete, hne]

/-- The index field wraps like the frequency field: in the reachable state
with counter `2^31` a subscription hands out the index `2^31` and the request
carries `-2^31`. -/
theorem addDataRef_wide_index :
    ∃ xp hist, Reach xp hist ∧ xp.socket = true
      ∧ (AddDataRefIn xp.datarefs xp (str "a") 1).idx = 2 ^ 31
      ∧ Carries (AddDataRefIn xp.datarefs xp (str "a") 1).request 1 (-(2 ^ 31)) (str "a") := by
  obtain ⟨xp, hist, hr, hs, hreg, hidx⟩ := reach_counter (2 ^ 31)
  have hidx' : xp.datarefIdx = 2 ^ 31 := by rw [hidx]; norm_num
  have hreq : (AddDataRefIn xp.datarefs xp (str "a") 1).request
      = some (rrefRequest 1 (2 ^ 31) (str "a")) := by
    simp [AddDataRefIn, hs, hreg, hidx', rangeFind]
  refine ⟨xp, hist, hr, hs, ?_, ?_⟩
  · simp [AddDataRefIn, hs, hreg, hidx', rangeFind]
  · have h := (carries_of_request hreq).1
    rw [show toInt32 1 = 1 from by decide,
      show toInt32 (2 ^ 31) = -(2 ^ 31) from by decide] at h
    exact h

/-- C1, amended: in a state reachable from `NewXPlaneUdp` whose socket is
initialised, a call `AddDataRef(dataref, freq)` with `freq ≥ 0` follows the
four-case table, whatever order the registry is ranged over; the request
carries `int32(freq)` and `int32(index)`, which are `freq` and the index
themselves when both are below `2^31`.
(i) `freq > 0`, name unregistered: the name is registered at the current
counter, the counter grows by one, the cache is untouched and the request
carries the frequency and the counter.
(ii) `freq > 0`, name registered at `k`: the client is unchanged and the
request carries the frequency and `k`; a second subscription of the same name
uses the index of the first.
(iii) `freq = 0`, name registered at `k`: exactly the registration `k` and the
cache entry of the name disappear, the name is registered nowhere any more, the
counter is unchanged and the request carries 0 and `k`.
(iv) `freq = 0`, name unregistered: the client is unchanged and the request
carries `(0, -9999)`. -/
theorem addDataRef_four_cases (xp : XPlaneUdp) (hist : List Int)
    (order : List (Int × GoString)) (dataref : GoString) (freq : Int)
    (hr : Reach xp hist) (hs : xp.socket = true) (hp : order.Perm xp.datarefs)
    (hf : 0 ≤ freq) :
    (0 < freq → (∀ k, GoMap.get xp.datarefs k ≠ some dataref) →
      (∀ k, GoMap.get (AddDataRefIn order xp dataref freq).xp.datarefs k =
          if k = xp.datarefIdx then some dataref else GoMap.get xp.datarefs k)
      ∧ (AddDataRefIn order xp dataref freq).xp.datarefIdx = xp.datarefIdx + 1
      ∧ (AddDataRefIn order xp dataref freq).xp.xplaneValues = xp.xplaneValues
      ∧ (AddDataRefIn order xp dataref freq).idx = xp.datarefIdx
      ∧ Carries (AddDataRefIn order xp dataref freq).request
          (toInt32 freq) (toInt32 xp.datarefIdx) dataref
      ∧ (freq < 2 ^ 31 → xp.datarefIdx < 2 ^ 31 →
          Carries (AddDataRefIn order xp dataref freq).request freq xp.datarefIdx dataref))
    ∧ (∀ k, 0 < freq → GoMap.get xp.datarefs k = some dataref →
      (AddDataRefIn order xp dataref freq).xp = xp
      ∧ (AddDataRefIn order xp dataref freq).idx = k
      ∧ Carries (AddDataRefIn order xp dataref freq).request (toInt32 freq) (toInt32 k) dataref
      ∧ (freq < 2 ^ 31 → k < 2 ^ 31 →
          Carries (AddDataRefIn order xp dataref freq).request freq k dataref))
    ∧ (∀ (order₂ : List (Int × GoString)) (freq₂ : Int), 0 < freq → 0 < freq₂ →
      order₂.Perm (AddDataRefIn order xp dataref freq).xp.datarefs →
      (AddDataRefIn order₂ (AddDataRefIn order xp dataref freq).xp dataref freq₂).idx =
        (AddDataRefIn order xp dataref freq).idx)
    ∧ (∀ k, freq = 0 → GoMap.get xp.datarefs k = some dataref →
      (∀ k', GoMap.get (AddDataRefIn order xp dataref freq).xp.datarefs k' =
          if k' = k then none else GoMap.get xp.datarefs k')
      ∧ (∀ k', GoMap.get (AddDataRefIn order xp dataref freq).xp.datarefs k' ≠ some dataref)
      ∧ (∀ n, GetValueSafe (AddDataRefIn order xp dataref freq).xp n =
          if n = dataref then none else GetValueSafe xp n)
      ∧ (AddDataRefIn order xp dataref freq).xp.datarefIdx = xp.datarefIdx
      ∧ Carries (AddDataRefIn order xp dataref freq).request 0 (toInt32 k) dataref
      ∧ (k < 2 ^ 31 → Carries (AddDataRefIn order xp dataref freq).request 0 k dataref))
    ∧ (freq = 0 → (∀ k, GoMap.get xp.datarefs k ≠ some dataref) →
      (AddDataRefIn order xp dataref freq).xp = xp
      ∧ Carries (AddDataRefIn order xp dataref freq).request 0 (-9999) dataref) := by
  have hinv := reach_inv hr
  obtain ⟨t₁, t₂, t₃, t₄, t₅⟩ := addDataRefIn_table xp hist order dataref freq hr hs hp hf
  refine ⟨?_, ?_, t₃, ?_, ?_⟩
  · intro hpos hk
    obtain ⟨a, b, c, d, e⟩ := t₁ hpos hk
    refine ⟨a, b, c, d, (carries_of_request e).1, ?_⟩
    intro h₁ h₂
    exact (carries_of_request e).2 (by omega) h₁ (by have := hinv.idxNonneg; omega) h₂
  · intro k hpos hk
    obtain ⟨a, b, e⟩ := t₂ k hpos hk
    refine ⟨a, b, (carries_of_request e).1, ?_⟩
    intro h₁ h₂
    have hk0 := (hinv.bounds k dataref (GoMap.mem_of_get hk)).1
    exact (carries_of_request e).2 (by omega) h₁ (by omega) h₂
  · intro k hzero hk
    obtain ⟨a, b, c, d, e⟩ := t₄ k hzero hk
    have hk0 := (hinv.bounds k dataref (GoMap.mem_of_get hk)).1
    have h0 : toInt32 0 = 0 := by decide
    have hc := carries_of_request e
    rw [h0] at hc
    refine ⟨a, b, c, d, hc.1, ?_⟩
    intro h₂
    exact hc.2 (by decide) (by decide) (by omega) h₂
  · intro hzero hk
    obtain ⟨a, e⟩ := t₅ hzero hk
    exact ⟨a, (carries_of_request e).2 (by decide) (by decide) (by decide) (by decide)⟩

/-- Witness of the amended C1: on the freshly initialised client, subscribing
`"a"` at 1 Hz sends a request that carries `(1, 0)`. -/
theorem addDataRef_four_cases_witness :
    Reach (InitSocket NewXPlaneUdp) [] ∧
    Carries (AddDataRefIn [] (InitSocket NewXPlaneUdp) (str "a") 1).request 1 0 (str "a") :=
  ⟨.initSocket .new,
   ((addDataRef_four_cases (InitSocket NewXPlaneUdp) [] [] (str "a") 1 (.initSocket .new) rfl
      (List.Perm.refl _) (by decide)).1 (by decide)
      (by intro k; simp [InitSocket, NewXPlaneUdp, GoMap.get])).2.2.2.2.2 (by decide)
      (by decide)⟩

/-! ## The counter and the handed-out indices -/

theorem addDataRefIn_counter_le (order : List (Int × GoString)) (xp : XPlaneUdp)
    (dataref : GoString) (freq : Int) :
    xp.datarefIdx ≤ (AddDataRefIn order xp dataref freq).xp.datarefIdx := by
  unfold AddDataRefIn
  split
  · exact le_refl _
  · dsimp only
    split
    · split <;> exact le_refl _
    · split
      · show xp.datarefIdx ≤ xp.datarefIdx + 1
        omega
      · exact le_refl _

theorem allocates_idx {order : List (Int × GoString)} {xp : XPlaneUdp} {dataref : GoString}
    {freq : Int} (h : allocates order xp dataref freq = true) :
    (AddDataRefIn order xp dataref freq).idx = xp.datarefIdx
    ∧ (AddDataRefIn order xp dataref freq).xp.datarefIdx = xp.datarefIdx + 1 := by
  simp only [allocates, Bool.and_eq_true, decide_eq_true_eq] at h
  obtain ⟨⟨hs, hfind⟩, hf⟩ := h
  simp [AddDataRefIn, hs, hfind, hf]

/-- The registry part of registry consistency, in every state reachable from
`NewXPlaneUdp` by `InitSocket`, `AddDataRef` calls (any name, any frequency,
any visiting order) and value-packet decode steps, also with datagrams decoded
inside a release: no two registered indices carry the same name; every
registered index is at least 0 and below the allocation counter; every index
handed out so far is below the counter and no index was handed out twice; no
step decreases the counter; and a call that allocates hands out the current
counter, which differs from every index handed out before. -/
theorem registry_consistency (xp : XPlaneUdp) (hist : List Int) (hr : Reach xp hist) :
    (∀ k₁ k₂ n, GoMap.get xp.datarefs k₁ = some n → GoMap.get xp.datarefs k₂ = some n →
      k₁ = k₂)
    ∧ (∀ k n, GoMap.get xp.datarefs k = some n → 0 ≤ k ∧ k < xp.datarefIdx)
    ∧ (∀ i ∈ hist, i < xp.datarefIdx)
    ∧ hist.Nodup
    ∧ (∀ between order dataref freq,
        xp.datarefIdx ≤ (AddDataRefDuring between order xp dataref freq).xp.datarefIdx)
    ∧ (∀ data, (ListenStep xp data).datarefIdx = xp.datarefIdx)
    ∧ (InitSocket xp).datarefIdx = xp.datarefIdx
    ∧ (∀ between order dataref freq, allocates order xp dataref freq = true →
        (AddDataRefDuring between order xp dataref freq).idx = xp.datarefIdx
        ∧ (AddDataRefDuring between order xp dataref freq).idx ∉ hist) := by
  have hinv := reach_inv hr
  refine ⟨?_, ?_, ?_, hinv.histNodup, ?_, ?_, rfl, ?_⟩
  · intro k₁ k₂ n h₁ h₂
    exact hinv.nameInj k₁ k₂ n (GoMap.mem_of_get h₁) (GoMap.mem_of_get h₂)
  · intro k n h
    exact hinv.bounds k n (GoMap.mem_of_get h)
  · intro i hi
    exact (hinv.histLt i hi).2
  · intro between order dataref freq
    rw [(addDataRefDuring_frame between order xp dataref freq).2.1]
    exact addDataRefIn_counter_le order xp dataref freq
  · intro data
    exact (listenStep_frame xp data).2.1
  · intro between order dataref freq h
    rw [(addDataRefDuring_frame between order xp dataref freq).2.2.2.1]
    refine ⟨(allocates_idx h).1, ?_⟩
    rw [(allocates_idx h).1]
    intro hmem
    have := (hinv.histLt _ hmem).2
    omega

theorem cacheWithin_storeRecord {xp : XPlaneUdp} (idx : Int) (value : F32)
    (h : CacheWithinRegistry xp) : CacheWithinRegistry (storeRecord xp idx value) := by
  unfold storeRecord
  cases hget : GoMap.get xp.datarefs idx with
  | none => exact h
  | some name =>
    intro n v hv
    simp only [GetValueSafe, GoMap.get_set] at hv
    by_cases hn : n = name
    · subst hn; exact ⟨idx, hget⟩
    · simp only [hn, if_false] at hv
      exact h n v hv

theorem cacheWithin_decodeRecords (valuesData : List Nat) (is : List Nat) :
    ∀ xp : XPlaneUdp, CacheWithinRegistry xp →
      CacheWithinRegistry (is.foldl (decodeRecord valuesData) xp) := by
  induction is with
  | nil => intro xp h; exact h
  | cons i is ih => intro xp h; exact ih _ (cacheWithin_storeRecord _ _ h)

theorem cacheWithin_listenStep {xp : XPlaneUdp} (data : List Nat)
    (h : CacheWithinRegistry xp) : CacheWithinRegistry (ListenStep xp data) := by
  unfold ListenStep
  split
  · exact h
  · split
    · exact cacheWithin_decodeRecords _ _ _ h
    · exact h

theorem cacheWithin_addDataRefIn {xp : XPlaneUdp} {hist : List Int}
    (order : List (Int × GoString)) (dataref : GoString) (freq : Int) (hinv : Inv xp hist)
    (hp : order.Perm xp.datarefs) (h : CacheWithinRegistry xp) :
    CacheWithinRegistry (AddDataRefIn order xp dataref freq).xp := by
  by_cases hs : xp.socket = true
  · by_cases hreg : ∃ k, GoMap.get xp.datarefs k = some dataref
    · obtain ⟨k, hk⟩ := hreg
      rw [addDataRefIn_registered freq hinv hp hs hk]
      by_cases hf : freq = 0
      · simp only [hf, if_true]
        intro n v hv
        have hv : GoMap.get (GoMap.delete xp.xplaneValues dataref) n = some v := hv
        rw [GoMap.get_delete] at hv
        by_cases hn : n = dataref
        · simp [hn] at hv
        · simp only [hn, if_false] at hv
          obtain ⟨a, ha⟩ := h n v hv
          refine ⟨a, ?_⟩
          show GoMap.get (GoMap.delete xp.datarefs k) a = some n
          rw [GoMap.get_delete]
          have hak : ¬ a = k := by
            intro hak
            rw [hak, hk] at ha
            exact hn (Option.some.inj ha).symm
          simp only [hak, if_false]
          exact ha
      · simp only [hf, if_false]
        exact h
    · have hk : ∀ k, GoMap.get xp.datarefs k ≠ some dataref := fun k hk => hreg ⟨k, hk⟩
      rw [addDataRefIn_unregistered freq hinv hp hs hk]
      by_cases hf : freq > 0
      · simp only [hf, if_true]
        intro n v hv
        obtain ⟨a, ha⟩ := h n v hv
        refine ⟨a, ?_⟩
        show GoMap.get (GoMap.set xp.datarefs xp.datarefIdx dataref) a = some n
        rw [GoMap.get_set]
        have hlt := (hinv.bounds a n (GoMap.mem_of_get ha)).2
        have hak : ¬ a = xp.datarefIdx := by omega
        simp only [hak, if_false]
        exact ha
      · simp only [hf, if_false]
        exact h
  · have hs' : xp.socket = false := by simpa using hs
    simpa [AddDataRefIn, hs'] using h

/-- The cache part of registry consistency, for whole steps: it holds of
`NewXPlaneUdp` and is kept by `InitSocket`, by every decoded datagram and by
every `AddDataRef` call inside which nothing is decoded. -/
theorem cacheWithinRegistry_whole_steps :
    CacheWithinRegistry NewXPlaneUdp
    ∧ ∀ (xp : XPlaneUdp) (hist : List Int), Reach xp hist → CacheWithinRegistry xp →
      CacheWithinRegistry (InitSocket xp)
      ∧ (∀ data, CacheWithinRegistry (ListenStep xp data))
      ∧ (∀ order dataref freq, order.Perm xp.datarefs →
          CacheWithinRegistry (AddDataRefIn order xp dataref freq).xp) := by
  refine ⟨?_, ?_⟩
  · intro n v hv
    simp [GetValueSafe, NewXPlaneUdp, GoMap.get] at hv
  · intro xp hist hr h
    exact ⟨h, fun data => cacheWithin_listenStep data h,
      fun order dataref freq hp =>
        cacheWithin_addDataRefIn order dataref freq (reach_inv hr) hp h⟩

set_option maxRecDepth 100000 in
/-- C3 fails on the code: subscribe `"a"` (index 0), then release it while the
`Listen` goroutine decodes the record `(0, 65.0)` between the unlock of line
228 and `delete(xp.datarefs, idx)` of line 229.  The state reached has `"a"`
in the value cache and registered at no index, so it breaks "every name that
has a value-cache entry is currently registered"; the same release with
nothing decoded inside it leaves no cache entry. -/
theorem release_race_leaves_cached_name_unregistered :
    Reach raceState [0]
    ∧ GetValueSafe raceState (str "a") = some 0x42820000
    ∧ raceState.datarefs = []
    ∧ (∀ k, GoMap.get raceState.datarefs k ≠ some (str "a"))
    ∧ ¬ CacheWithinRegistry raceState
    ∧ GetValueSafe
        (AddDataRefDuring [] [(0, str "a")]
          (AddDataRef (InitSocket NewXPlaneUdp) (str "a") 1).xp (str "a") 0).xp (str "a")
      = none := by
  have hval : GetValueSafe raceState (str "a") = some 0x42820000 := by decide
  have hreg : raceState.datarefs = [] := by decide
  have hun : ∀ k, GoMap.get raceState.datarefs k ≠ some (str "a") := by
    intro k
    rw [hreg]
    simp [GoMap.get]
  refine ⟨?_, hval, hreg, hun, ?_, by decide⟩
  · exact Reach.addDataRefDuring [raceDatagram] [(0, str "a")] (str "a") 0
      (Reach.addDataRef [] (str "a") 1 (Reach.initSocket Reach.new) (List.Perm.refl _))
      (List.Perm.refl _)
  · intro h
    obtain ⟨k, hk⟩ := h (str "a") _ hval
    exact hun k hk

/-! ## The store rule of the value-packet decoder -/

namespace F32

theorem isNaN_zero : isNaN zero = false := by decide
theorem scaled_zero : scaled zero = 0 := by decide
theorem isNaN_negMilli : isNaN negMilli = false := by decide
theorem scaled_negMilli : scaled negMilli = -(8589935 * 2 ^ 116) := by
  norm_num [scaled, sign, mag, expo, frac, negMilli]

theorem mag_threshold (v : F32) :
    mag v < 8589935 * 2 ^ 116 ↔ 1000 * mag v < 2 ^ 149 := by
  have hf : frac v < 2 ^ 23 := Nat.mod_lt _ (by norm_num)
  unfold mag
  generalize frac v = f at hf ⊢
  generalize expo v = e
  by_cases h0 : e = 0
  · simp only [h0, if_true]
    norm_num at hf ⊢
    omega
  · simp only [h0, if_false]
    rcases Nat.lt_trichotomy e 117 with h | h | h
    · have hp : 2 ^ (e - 1) ≤ 2 ^ 115 := Nat.pow_le_pow_right (by norm_num) (by omega)
      have hm : (2 ^ 23 + f) * 2 ^ (e - 1) ≤ (2 ^ 24 - 1) * 2 ^ 115 :=
        Nat.mul_le_mul (by norm_num at hf ⊢; omega) hp
      generalize (2 ^ 23 + f) * 2 ^ (e - 1) = m at hm ⊢
      norm_num at hm ⊢
      omega
    · subst h
      norm_num at hf ⊢
      omega
    · have hp : 2 ^ 117 ≤ 2 ^ (e - 1) := Nat.pow_le_pow_right (by norm_num) (by omega)
      have hm : 2 ^ 23 * 2 ^ 117 ≤ (2 ^ 23 + f) * 2 ^ (e - 1) :=
        Nat.mul_le_mul (by omega) hp
      generalize (2 ^ 23 + f) * 2 ^ (e - 1) = m at hm ⊢
      norm_num at hm ⊢
      omega

theorem clamp_iff (v : F32) :
    (lt v zero && lt negMilli v) = inNoiseInterval v := by
  have hm := mag_threshold v
  simp only [lt, inNoiseInterval, isNaN_zero, isNaN_negMilli, scaled_zero, scaled_negMilli]
  cases hn : isNaN v
  · simp only [Bool.not_false, Bool.true_and, Bool.not_true, Bool.and_true]
    unfold scaled
    by_cases hs : sign v = 1
    · simp only [hs, if_true]
      rw [Bool.eq_iff_iff]
      simp only [Bool.and_eq_true, decide_eq_true_eq]
      norm_num at hm ⊢
      omega
    · simp only [hs, if_false]
      rw [Bool.eq_iff_iff]
      simp only [Bool.and_eq_true, decide_eq_true_eq]
      omega
  · simp
end F32

/-- C4: the store rule of the record loop of `Listen`.  If the index of the
record is registered to `name`, the cache entry of `name` becomes exactly `0.0`
when the value lies strictly between `-0.001` and `0`, and exactly the value
otherwise, and no other cache entry changes; if the index is not registered the
client is unchanged; the registry and the counter are never changed. -/
theorem storeRecord_rule (xp : XPlaneUdp) (idx : Int) (value : F32) :
    (∀ name, GoMap.get xp.datarefs idx = some name →
      GetValueSafe (storeRecord xp idx value) name =
        some (if F32.inNoiseInterval value then F32.zero else value)
      ∧ ∀ n, n ≠ name → GetValueSafe (storeRecord xp idx value) n = GetValueSafe xp n)
    ∧ (GoMap.get xp.datarefs idx = none → storeRecord xp idx value = xp)
    ∧ (storeRecord xp idx value).datarefs = xp.datarefs
    ∧ (storeRecord xp idx value).datarefIdx = xp.datarefIdx := by
  refine ⟨?_, ?_, (storeRecord_frame xp idx value).1, (storeRecord_frame xp idx value).2.1⟩
  · intro name hname
    simp only [storeRecord, hname, GetValueSafe, GoMap.get_set, F32.clamp_iff]
    refine ⟨by simp, ?_⟩
    intro n hn
    simp [hn]
  · intro hnone
    simp [storeRecord, hnone]

/-- Witness of C4: with index 3 registered to `"foo"`, the record
`(3, -0.0005)` (bit pattern `0xBA03126F`) leaves `"foo"` at exactly `0.0`, also
when it arrives in a value datagram. -/
theorem storeRecord_rule_witness :
    GetValueSafe (storeRecord ⟨true, 4, [(3, str "foo")], []⟩ 3 0xBA03126F) (str "foo")
      = some F32.zero
    ∧ GetValueSafe (ListenStep ⟨true, 4, [(3, str "foo")], []⟩
        (str "RREF," ++ [3, 0, 0, 0, 0x6F, 0x12, 0x03, 0xBA])) (str "foo") = some F32.zero :=
  ⟨((storeRecord_rule ⟨true, 4, [(3, str "foo")], []⟩ 3 0xBA03126F).1 (str "foo")
      (by decide)).1.trans (by rw [← F32.clamp_iff]; decide),
   by decide⟩

/-! ## Beacon decoding -/

theorem byteAt_header_padded (packet : List Nat) (k : Nat) (i : Nat) (hi : i < 16) :
    byteAt (((packet ++ List.replicate k 0).drop 5).take 16) i = byteAt packet (5 + i) := by
  unfold byteAt
  rw [List.getD_eq_getElem?_getD, List.getD_eq_getElem?_getD, List.getElem?_take_of_lt hi,
    List.getElem?_drop]
  by_cases h : 5 + i < packet.length
  · rw [List.getElem?_append_left h]
  · have hp : packet[5 + i]? = none := List.getElem?_eq_none (by omega)
    rw [List.getElem?_append_right (by omega), hp]
    by_cases hk : 5 + i - packet.length < k
    · simp [List.getElem?_replicate, hk]
    · simp [List.getElem?_replicate, hk]

theorem IndexByte_spec (bs : List Nat) :
    (IndexByte bs 0 = -1 ∧ bs.takeWhile (fun b => b != 0) = bs)
    ∨ (∃ n : Nat, IndexByte bs 0 = (n : Int) ∧ bs.take n = bs.takeWhile (fun b => b != 0)) := by
  induction bs with
  | nil => left; simp [IndexByte]
  | cons b rest ih =>
    by_cases hb : b = 0
    · subst hb
      right
      exact ⟨0, by simp [IndexByte], by simp⟩
    · rcases ih with ⟨h₁, h₂⟩ | ⟨n, h₁, h₂⟩
      · left
        simp [IndexByte, hb, h₁, h₂]
      · right
        refine ⟨n + 1, ?_, ?_⟩
        · simp only [IndexByte, hb, if_false, h₁]
          have : ¬ ((n : Int) = -1) := by omega
          simp [this]
        · simp [hb, h₂]

theorem IndexByte_take (bs : List Nat) :
    bs.take (if IndexByte bs 0 = -1 then (bs.length : Int) else IndexByte bs 0).toNat
      = bs.takeWhile (fun b => b != 0) := by
  rcases IndexByte_spec bs with ⟨h₁, h₂⟩ | ⟨n, h₁, h₂⟩
  · simp [h₁, h₂]
  · have : ¬ ((n : Int) = -1) := by omega
    simp [h₁, this, h₂]

theorem isPrefixOf_take (p : List Nat) :
    ∀ (l : List Nat) (n : Nat), p.length ≤ n → p.isPrefixOf (l.take n) = p.isPrefixOf l := by
  induction p with
  | nil => intro l n _; simp
  | cons a p ih =>
    intro l n hn
    cases l with
    | nil => simp
    | cons b l =>
      obtain ⟨m, rfl⟩ : ∃ m, n = m + 1 := ⟨n - 1, by simp at hn; omega⟩
      simp only [List.take_succ_cons, List.isPrefixOf]
      rw [ih l m (by simp at hn; omega)]

theorem byteAt_take (l : List Nat) (n i : Nat) (h : i < n) :
    byteAt (l.take n) i = byteAt l i := by
  unfold byteAt
  rw [List.getD_eq_getElem?_getD, List.getD_eq_getElem?_getD, List.getElem?_take_of_lt h]

/-- The outcome of `FindIp` by cases, on the bytes of the datagram: only the
host name depends on the 2048 bytes the read keeps. -/
theorem findIp_cases (datagram : List Nat) (sender : GoString) :
    FindIp datagram sender =
      if startsWith datagram (str "BECN\x00") = false then .error .nonBeaconPacket
      else if byteAt datagram 5 ≠ 1 ∨ byteAt datagram 6 > 2 ∨ getInt32LE datagram 7 ≠ 1 then
        .error .ErrXPlaneVersionNotSupported
      else if datagram.length < 21 then .slicePanic
      else .ok
        { IP := sender
          Port := (getUint16LE datagram 19 : Int)
          Hostname := ((datagram.take 2048).drop 21).takeWhile (fun b => b != 0)
          XPlaneVersion := getInt32LE datagram 11
          Role := (getUint32LE datagram 15 : Int) } := by
  have hb : ∀ i, i < 16 →
      byteAt (((datagram.take 2048 ++
          List.replicate (2048 - (datagram.take 2048).length) 0).drop 5).take 16) i
        = byteAt datagram (5 + i) := fun i hi => by
    rw [byteAt_header_padded _ _ i hi, byteAt_take _ _ _ (by omega)]
  have hlen16 : ¬ (((datagram.take 2048 ++
      List.replicate (2048 - (datagram.take 2048).length) 0).drop 5).take 16).length < 16 := by
    simp only [List.length_take, List.length_drop, List.length_append, List.length_replicate]
    omega
  have hpre' : startsWith (datagram.take 2048) (str "BECN\x00")
      = startsWith datagram (str "BECN\x00") :=
    isPrefixOf_take _ _ _ (by decide)
  have hlen : ((datagram.take 2048).length < 21) = (datagram.length < 21) := by
    simp only [List.length_take, eq_iff_iff]
    omega
  cases hpre : startsWith datagram (str "BECN\x00")
  · simp [FindIp, hpre', hpre]
  · simp only [FindIp, hpre', hpre, readBecn, hlen16, getInt32LE, getUint32LE, getUint16LE,
      hb 0 (by omega), hb 1 (by omega), hb 2 (by omega), hb 3 (by omega), hb 4 (by omega),
      hb 5 (by omega), hb 6 (by omega), hb 7 (by omega), hb 8 (by omega), hb 9 (by omega),
      hb 10 (by omega), hb 11 (by omega), hb 12 (by omega), hb 13 (by omega),
      hb 14 (by omega), hb 15 (by omega), hlen, IndexByte_take]
    simp

/-- C11 fails on the code: the steps of `FindIp` after the read end in a
slice-bounds panic exactly for a packet that starts with `"BECN\0"`, passes the
version check (major 1, minor at most 2, host id 1, the bytes behind a short
packet being the zeros of the buffer) and is shorter than 21 bytes: the header
slice `packet[5:21]` stays within the capacity, but `packet[21:]` is out of
range.  Every other packet ends in a `BeaconData` or an error. -/
theorem findIp_slicePanic_iff (packet : List Nat) (sender : GoString) :
    FindIp packet sender = .slicePanic ↔
      (startsWith packet (str "BECN\x00") = true ∧ byteAt packet 5 = 1 ∧ byteAt packet 6 ≤ 2
        ∧ getInt32LE packet 7 = 1 ∧ packet.length < 21) := by
  rw [findIp_cases]
  cases hpre : startsWith packet (str "BECN\x00")
  · simp
  · by_cases hver : byteAt packet 5 ≠ 1 ∨ byteAt packet 6 > 2 ∨ getInt32LE packet 7 ≠ 1
    · simp only [Bool.true_eq_false, if_false, hver, if_true, true_and]
      constructor
      · intro h; simp at h
      · rintro ⟨h₁, h₂, h₃, _⟩
        rcases hver with h | h | h
        · exact absurd h₁ h
        · omega
        · exact absurd h₃ h
    · simp only [Bool.true_eq_false, if_false, hver, true_and]
      have hver' : byteAt packet 5 = 1 ∧ byteAt packet 6 ≤ 2 ∧ getInt32LE packet 7 = 1 := by
        refine ⟨?_, ?_, ?_⟩
        · by_contra h; exact hver (Or.inl h)
        · by_contra h; exact hver (Or.inr (Or.inl (by omega)))
        · by_contra h; exact hver (Or.inr (Or.inr h))
      by_cases hlen : packet.length < 21
      · simp [hlen, hver']
      · simp [hlen]

/-- The failing input of C11: the 11-byte datagram `"BECN\0"`, major 1, minor
0, host id 1 passes the prefix and version checks and panics at `packet[21:]`. -/
theorem findIp_slicePanic_iff_witness :
    FindIp (str "BECN\x00" ++ [1, 0, 1, 0, 0, 0]) (str "10.0.0.2") = .slicePanic :=
  (findIp_slicePanic_iff _ (str "10.0.0.2")).mpr
    ⟨by decide, by decide, by decide, by decide, by decide⟩

/-! ## The scan of the string reader -/

theorem F32.toByte_whole {v : F32} {n : Nat} (h : F32.IsWhole v n) (hn : n ≤ 255) :
    F32.toByte v = n := by
  obtain ⟨hnan, hs⟩ := h
  have ht : Int.tdiv (F32.scaled v) (2 ^ 149) = (n : Int) := by
    rw [hs]
    exact Int.mul_tdiv_cancel _ (by norm_num)
  simp only [F32.toByte, hnan, ht, Bool.false_or]
  have h₁ : ¬ ((n : Int) < -(2 ^ 31)) := by omega
  have h₂ : ¬ ((2 : Int) ^ 31 ≤ (n : Int)) := by omega
  simp only [h₁, h₂, decide_False, Bool.or_self, Bool.false_eq_true, if_false]
  omega

theorem scanLoop_terminated (xp : XPlaneUdp) (base : GoString) (length : Nat) (n : Nat → Nat) :
    ∀ (d i : Nat) (cur : List Nat), i + d < length →
      (∀ j, i ≤ j → j ≤ i + d → HoldsByte xp base j (n j)) →
      (∀ j, i ≤ j → j < i + d → n j ≠ 0) → n (i + d) = 0 →
      scanLoop xp base length (length - i) i cur false
        = (true, cur ++ (List.range' i d).map n) := by
  intro d
  induction d with
  | zero =>
    intro i cur hlt hall _ hz
    obtain ⟨v, hv, hw, hb⟩ := hall i (le_refl _) (by omega)
    obtain ⟨f, hf⟩ : ∃ f, length - i = f + 1 := ⟨length - i - 1, by omega⟩
    have hzero : n i = 0 := by simpa using hz
    rw [hf]
    simp [scanLoop, hv, F32.toByte_whole hw hb, hzero]
  | succ d ih =>
    intro i cur hlt hall hnz hz
    obtain ⟨v, hv, hw, hb⟩ := hall i (le_refl _) (by omega)
    obtain ⟨f, hf⟩ : ∃ f, length - i = f + 1 := ⟨length - i - 1, by omega⟩
    have hne : n i ≠ 0 := hnz i (le_refl _) (by omega)
    have hlast : ¬ i = length - 1 := by omega
    have hf' : f = length - (i + 1) := by omega
    rw [hf]
    simp only [scanLoop, hv, F32.toByte_whole hw hb, hne, hlast, if_false]
    rw [hf', ih (i + 1) (cur ++ [n i]) (by omega)
      (fun j h₁ h₂ => hall j (by omega) (by omega))
      (fun j h₁ h₂ => hnz j (by omega) (by omega))
      (by rw [← hz]; congr 1; omega)]
    simp [List.range'_succ]

theorem scanLoop_full (xp : XPlaneUdp) (base : GoString) (length : Nat) (n : Nat → Nat) :
    ∀ (d i : Nat) (cur : List Nat), i + (d + 1) = length →
      (∀ j, i ≤ j → j < length → HoldsByte xp base j (n j) ∧ n j ≠ 0) →
      scanLoop xp base length (d + 1) i cur false
        = (true, cur ++ (List.range' i (d + 1)).map n) := by
  intro d
  induction d with
  | zero =>
    intro i cur hlen hall
    obtain ⟨⟨v, hv, hw, hb⟩, hne⟩ := hall i (le_refl _) (by omega)
    have hlast : i = length - 1 := by omega
    simp [scanLoop, hv, F32.toByte_whole hw hb, hne, ← hlast]
  | succ d ih =>
    intro i cur hlen hall
    obtain ⟨⟨v, hv, hw, hb⟩, hne⟩ := hall i (le_refl _) (by omega)
    have hlast : ¬ i = length - 1 := by omega
    rw [scanLoop]
    simp only [hv, F32.toByte_whole hw hb, hne, hlast, if_false]
    rw [ih (i + 1) (cur ++ [n i]) (by omega) (fun j h₁ h₂ => hall j (by omega) h₂)]
    simp [List.range'_succ]

theorem scanLoop_missing (xp : XPlaneUdp) (base : GoString) (length : Nat) (n : Nat → Nat)
    (j : Nat) (hj : j < length) (hnone : GetValueSafe xp (drName base j) = none) :
    ∀ (d i : Nat) (cur : List Nat), i + d = j →
      (∀ i', i ≤ i' → i' < j → GetValueSafe xp (drName base i') = none
        ∨ (HoldsByte xp base i' (n i') ∧ n i' ≠ 0)) →
      (scanLoop xp base length (length - i) i cur false).1 = false := by
  intro d
  induction d with
  | zero =>
    intro i cur hij _
    have hi : i = j := by omega
    subst hi
    obtain ⟨f, hf⟩ : ∃ f, length - i = f + 1 := ⟨length - i - 1, by omega⟩
    rw [hf]
    simp [scanLoop, hnone]
  | succ d ih =>
    intro i cur hij hall
    obtain ⟨f, hf⟩ : ∃ f, length - i = f + 1 := ⟨length - i - 1, by omega⟩
    have hf' : f = length - (i + 1) := by omega
    rw [hf]
    rcases hall i (le_refl _) (by omega) with hmiss | ⟨⟨v, hv, hw, hb⟩, hne⟩
    · simp [scanLoop, hmiss]
    · have hlast : ¬ i = length - 1 := by omega
      simp only [scanLoop, hv, F32.toByte_whole hw hb, hne, hlast, if_false]
      rw [hf']
      exact ih (i + 1) (cur ++ [n i]) (by omega) (fun i' h₁ h₂ => hall i' (by omega) h₂)

/-- C6: the per-tick scan of `GetString(datarefBase, length)` for `length ≥ 1`,
on a cache whose values for the elements are whole numbers `n i` in 0..255.
If elements `0..k` all have values, `k < length` and element `k` is the first
zero, the scan completes with exactly the bytes of elements `0..k-1`; if
elements `0..length-1` all have non-zero values it completes with all `length`
bytes; if an element `j < length` has no value and every element before it is
either missing or non-zero, the scan does not complete. -/
theorem scanTick_rule (xp : XPlaneUdp) (datarefBase : GoString) (length : Nat)
    (n : Nat → Nat) (hlen : 1 ≤ length) :
    (∀ k, k < length → (∀ i, i ≤ k → HoldsByte xp datarefBase i (n i)) →
      (∀ i, i < k → n i ≠ 0) → n k = 0 →
      scanTick xp datarefBase length = (true, (List.range k).map n))
    ∧ ((∀ i, i < length → HoldsByte xp datarefBase i (n i) ∧ n i ≠ 0) →
      scanTick xp datarefBase length = (true, (List.range length).map n))
    ∧ (∀ j, j < length → GetValueSafe xp (drName datarefBase j) = none →
      (∀ i, i < j → GetValueSafe xp (drName datarefBase i) = none
        ∨ (HoldsByte xp datarefBase i (n i) ∧ n i ≠ 0)) →
      (scanTick xp datarefBase length).1 = false) := by
  refine ⟨?_, ?_, ?_⟩
  · intro k hk hall hnz hz
    have h := scanLoop_terminated xp datarefBase length n k 0 [] (by omega)
      (fun j _ h₂ => hall j (by omega)) (fun j _ h₂ => hnz j (by omega)) (by simpa using hz)
    simpa [scanTick, List.range_eq_range'] using h
  · intro hall
    obtain ⟨d, hd⟩ : ∃ d, length = d + 1 := ⟨length - 1, by omega⟩
    have h := scanLoop_full xp datarefBase length n d 0 [] (by omega)
      (fun j _ h₂ => hall j h₂)
    unfold scanTick
    rw [List.range_eq_range']
    rw [hd] at h ⊢
    simpa using h
  · intro j hj hnone hall
    have h := scanLoop_missing xp datarefBase length n j hj hnone j 0 [] (by omega)
      (fun i _ h₂ => hall i h₂)
    simpa [scanTick] using h

set_option maxRecDepth 100000 in
/-- Witness of C6: with the values `[0x41, 0x42, 0x43, 0, 0]` delivered for
`x[0]` .. `x[4]`, the scan of `GetString("x", 5)` completes with `"ABC"`; and
the whole call on a fresh client (nothing at the first tick, the five values
before the second) returns `"ABC"` and leaves nothing registered. -/
theorem scanTick_rule_witness :
    scanTick ⟨true, 5, [],
        [(str "x[0]", 0x42820000), (str "x[1]", 0x42840000), (str "x[2]", 0x42860000),
         (str "x[3]", 0), (str "x[4]", 0)]⟩ (str "x") 5 = (true, str "ABC")
    ∧ (GetString (InitSocket NewXPlaneUdp) (str "x") 5
        ⟨fun _ => [], [[], [abcDatagram]], fun _ => []⟩).2 = str "ABC"
    ∧ (GetString (InitSocket NewXPlaneUdp) (str "x") 5
        ⟨fun _ => [], [[], [abcDatagram]], fun _ => []⟩).1.datarefs = [] :=
  ⟨(scanTick_rule _ (str "x") 5 (fun i => [0x41, 0x42, 0x43, 0, 0].getD i 0) (by decide)).1 3
    (by decide)
    (by
      intro i hi
      interval_cases i
      · exact ⟨0x42820000, by decide,
          ⟨by decide, by norm_num [F32.scaled, F32.sign, F32.mag, F32.expo, F32.frac]⟩,
          by decide⟩
      · exact ⟨0x42840000, by decide,
          ⟨by decide, by norm_num [F32.scaled, F32.sign, F32.mag, F32.expo, F32.frac]⟩,
          by decide⟩
      · exact ⟨0x42860000, by decide,
          ⟨by decide, by norm_num [F32.scaled, F32.sign, F32.mag, F32.expo, F32.frac]⟩,
          by decide⟩
      · exact ⟨0, by decide,
          ⟨by decide, by norm_num [F32.scaled, F32.sign, F32.mag, F32.expo, F32.frac]⟩,
          by decide⟩)
    (by intro i hi; interval_cases i <;> decide)
    (by decide),
   by decide, by decide⟩

/-! ## The trigger prefix of the monitor -/

theorem collectBytes_whole (xp : XPlaneUdp) :
    ∀ (refs : List GoString) (vals : List Nat) (cur : List Nat),
      List.Forall₂ (fun dr n => ∃ v, GetValueSafe xp dr = some v ∧ F32.IsWhole v n ∧ n ≤ 255)
        refs vals →
      collectBytes xp refs cur = cur ++ vals.filter (fun b => b != 0) := by
  intro refs vals cur h
  induction h generalizing cur with
  | nil => simp [collectBytes]
  | @cons dr n refs vals hhead _ ih =>
    obtain ⟨v, hv, hw, hb⟩ := hhead
    by_cases hn : n = 0
    · simp [collectBytes, hv, F32.toByte_whole hw hb, hn, ih]
    · simp [collectBytes, hv, F32.toByte_whole hw hb, hn, ih]

theorem currentICAOPrefix_whole (xp : XPlaneUdp) (n : Nat → Nat)
    (h : ∀ i, i < 4 → HoldsByte xp (str "sim/aircraft/view/acf_ICAO") i (n i)) :
    currentICAOPrefix xp = [n 0, n 1, n 2, n 3].filter (fun b => b != 0) := by
  have h₀ := h 0 (by decide)
  have h₁ := h 1 (by decide)
  have h₂ := h 2 (by decide)
  have h₃ := h 3 (by decide)
  have := collectBytes_whole xp icaoTriggerRefs [n 0, n 1, n 2, n 3] []
    (List.Forall₂.cons h₀ (List.Forall₂.cons h₁ (List.Forall₂.cons h₂
      (List.Forall₂.cons h₃ List.Forall₂.nil))))
  simpa [currentICAOPrefix] using this

theorem gapCache_holds :
    ∀ i, i < 4 → HoldsByte gapCache (str "sim/aircraft/view/acf_ICAO") i
      ([0x41, 0, 0x42, 0x43].getD i 0) := by
  intro i hi
  interval_cases i
  · exact ⟨0x42820000, by decide,
      ⟨by decide, by norm_num [F32.scaled, F32.sign, F32.mag, F32.expo, F32.frac]⟩, by decide⟩
  · exact ⟨0, by decide,
      ⟨by decide, by norm_num [F32.scaled, F32.sign, F32.mag, F32.expo, F32.frac]⟩, by decide⟩
  · exact ⟨0x42840000, by decide,
      ⟨by decide, by norm_num [F32.scaled, F32.sign, F32.mag, F32.expo, F32.frac]⟩, by decide⟩
  · exact ⟨0x42860000, by decide,
      ⟨by decide, by norm_num [F32.scaled, F32.sign, F32.mag, F32.expo, F32.frac]⟩, by decide⟩

/-- C8, as stated, fails: with `acf_ICAO[0..3]` holding `'A'`, `0`, `'B'`, `'C'`
the monitor forms `"ABC"`, while the bytes up to the first zero are `"A"`. -/
theorem currentICAOPrefix_stops_at_zero_counterexample :
    (∀ i, i < 4 → HoldsByte gapCache (str "sim/aircraft/view/acf_ICAO") i
      ([0x41, 0, 0x42, 0x43].getD i 0))
    ∧ currentICAOPrefix gapCache = str "ABC"
    ∧ prefixUpToFirstZero [0x41, 0, 0x42, 0x43] = str "A"
    ∧ currentICAOPrefix gapCache ≠ prefixUpToFirstZero [0x41, 0, 0x42, 0x43] := by
  have h := currentICAOPrefix_whole gapCache _ gapCache_holds
  refine ⟨gapCache_holds, ?_, by decide, ?_⟩
  · rw [h]; decide
  · rw [h]; decide

/-- C8, amended: on a cache in which `acf_ICAO[0..3]` hold the whole numbers
`n 0 .. n 3` in 0..255, the prefix the monitor forms is the non-zero bytes among
them in index order; a zero byte is skipped and does not end the reading. -/
theorem currentICAOPrefix_skips_zeros (xp : XPlaneUdp) (n : Nat → Nat)
    (h : ∀ i, i < 4 → HoldsByte xp (str "sim/aircraft/view/acf_ICAO") i (n i)) :
    currentICAOPrefix xp = [n 0, n 1, n 2, n 3].filter (fun b => b != 0) :=
  currentICAOPrefix_whole xp n h

/-- Witness of the amended C8 on the cache `'A'`, `0`, `'B'`, `'C'`. -/
theorem currentICAOPrefix_skips_zeros_witness :
    currentICAOPrefix gapCache = str "ABC" :=
  (currentICAOPrefix_skips_zeros gapCache (fun i => [0x41, 0, 0x42, 0x43].getD i 0)
    gapCache_holds).trans (by decide)

/-! ## The last-seen prefix -/

/-- C9, as stated, fails: after a successful send with an empty fetched
identifier (shorter than four characters), the last-seen prefix is the trigger
prefix `"B738"`, not the fetched identifier. -/
theorem nextLastICAO_short_counterexample :
    ([] : GoString).length < 4
    ∧ nextLastICAO [] (str "B738") [] true = str "B738"
    ∧ nextLastICAO [] (str "B738") [] true ≠ [] := by
  decide

/-- C9, amended: a failed send leaves the last-seen prefix unchanged; after a
successful send it is the first four bytes of the fetched identifier when that
has at least four, the fetched identifier itself when that has one to three
bytes, and the observed trigger prefix when the fetched identifier is empty. -/
theorem nextLastICAO_rule (lastICAO cur fullICAO : GoString) :
    nextLastICAO lastICAO cur fullICAO false = lastICAO
    ∧ (4 ≤ fullICAO.length → nextLastICAO lastICAO cur fullICAO true = fullICAO.take 4)
    ∧ (1 ≤ fullICAO.length → fullICAO.length < 4 →
        nextLastICAO lastICAO cur fullICAO true = fullICAO)
    ∧ (fullICAO = [] → nextLastICAO lastICAO cur fullICAO true = cur) := by
  refine ⟨by simp [nextLastICAO], ?_, ?_, ?_⟩
  · intro h
    have h₁ : ¬ (0 < fullICAO.length ∧ fullICAO.length < 4) := by omega
    simp [nextLastICAO, h₁, h]
  · intro h₁ h₂
    have h : 0 < fullICAO.length ∧ fullICAO.length < 4 := ⟨by omega, h₂⟩
    simp only [nextLastICAO, Bool.not_true, Bool.false_eq_true, if_false, h]
    simp
  · intro h
    subst h
    simp [nextLastICAO]

/-- Witness of the amended C9: fetched `"B738MAX"` gives `"B738"`, fetched
`"C172"` cut to `"C17"` gives `"C17"`. -/
theorem nextLastICAO_rule_witness :
    nextLastICAO (str "A320") (str "B738") (str "B738MAX") true = str "B738"
    ∧ nextLastICAO (str "A320") (str "C17") (str "C17") true = str "C17" :=
  ⟨((nextLastICAO_rule (str "A320") (str "B738") (str "B738MAX")).2.1 (by decide)).trans
      (by decide),
   (nextLastICAO_rule (str "A320") (str "C17") (str "C17")).2.2.1 (by decide) (by decide)⟩

/-! ## The derived registration -/

theorem matchLetterDash4_sound {s m : List Nat} (h : matchLetterDash4 s = some m) :
    m <+: s ∧ CodeFormat m := by
  unfold matchLetterDash4 at h
  split at h
  · rename_i a d b₁ b₂ b₃ b₄ t
    split at h
    · rename_i hc
      simp only [Bool.and_eq_true, beq_iff_eq] at hc
      obtain ⟨⟨⟨⟨⟨ha, hd⟩, h₁⟩, h₂⟩, h₃⟩, h₄⟩ := hc
      simp only [Option.some.injEq] at h
      subst h
      subst hd
      exact ⟨⟨t, rfl⟩, Or.inl ⟨a, b₁, b₂, b₃, b₄, rfl, ha, h₁, h₂, h₃, h₄⟩⟩
    · simp at h
  · simp at h

theorem matchLetterDash4_complete {w t : List Nat}
    (h : ∃ a b₁ b₂ b₃ b₄, w = [a, 45, b₁, b₂, b₃, b₄] ∧ isUpper a = true ∧ isUpper b₁ = true
      ∧ isUpper b₂ = true ∧ isUpper b₃ = true ∧ isUpper b₄ = true) :
    matchLetterDash4 (w ++ t) = some w := by
  obtain ⟨a, b₁, b₂, b₃, b₄, rfl, ha, h₁, h₂, h₃, h₄⟩ := h
  simp [matchLetterDash4, ha, h₁, h₂, h₃, h₄]

theorem matchTwoDash3_sound {s m : List Nat} (h : matchTwoDash3 s = some m) :
    m <+: s ∧ CodeFormat m := by
  unfold matchTwoDash3 at h
  split at h
  · rename_i a₁ a₂ d b₁ b₂ b₃ t
    split at h
    · rename_i hc
      simp only [Bool.and_eq_true, beq_iff_eq] at hc
      obtain ⟨⟨⟨⟨⟨ha₁, ha₂⟩, hd⟩, h₁⟩, h₂⟩, h₃⟩ := hc
      simp only [Option.some.injEq] at h
      subst h
      subst hd
      exact ⟨⟨t, rfl⟩, Or.inr (Or.inl ⟨a₁, a₂, b₁, b₂, b₃, rfl, ha₁, ha₂, h₁, h₂, h₃⟩)⟩
    · simp at h
  · simp at h

theorem matchTwoDash3_complete {w t : List Nat}
    (h : ∃ a₁ a₂ b₁ b₂ b₃, w = [a₁, a₂, 45, b₁, b₂, b₃] ∧ isUpperOrDigit19 a₁ = true
      ∧ isUpperOrDigit19 a₂ = true ∧ isUpper b₁ = true ∧ isUpper b₂ = true
      ∧ isUpper b₃ = true) :
    matchTwoDash3 (w ++ t) = some w := by
  obtain ⟨a₁, a₂, b₁, b₂, b₃, rfl, ha₁, ha₂, h₁, h₂, h₃⟩ := h
  simp [matchTwoDash3, ha₁, ha₂, h₁, h₂, h₃]

theorem takeUpTo_spec (max : Nat) (c : Nat → Bool) (s : List Nat) :
    takeUpTo max c s ++ s.drop (takeUpTo max c s).length = s
    ∧ (takeUpTo max c s).length ≤ max
    ∧ ∀ b ∈ takeUpTo max c s, c b = true := by
  refine ⟨?_, ?_, ?_⟩
  · have hp : takeUpTo max c s <+: s :=
      (List.take_prefix _ _).trans (List.takeWhile_prefix c)
    have h := List.take_append_drop (takeUpTo max c s).length s
    rw [← List.prefix_iff_eq_take.mp hp] at h
    exact h
  · simp [takeUpTo, List.length_take]
  · intro b hb
    exact List.mem_takeWhile_imp (List.mem_of_mem_take hb)

theorem matchNNumber_sound {s m : List Nat} (h : matchNNumber s = some m) :
    m <+: s ∧ CodeFormat m := by
  cases s with
  | nil => simp [matchNNumber] at h
  | cons b rest =>
    simp only [matchNNumber] at h
    split at h
    · rename_i hb
      subst hb
      split at h
      · rename_i hlen
        simp only [Option.some.injEq] at h
        subst h
        obtain ⟨hd₁, hd₂, hd₃⟩ := takeUpTo_spec 5 isDigit rest
        obtain ⟨hl₁, hl₂, hl₃⟩ := takeUpTo_spec 2 isUpper
          (rest.drop (takeUpTo 5 isDigit rest).length)
        refine ⟨?_, Or.inr (Or.inr ⟨_, _, rfl, hlen, hd₂, hd₃, hl₂, hl₃⟩)⟩
        refine ⟨List.drop (takeUpTo 2 isUpper
          (rest.drop (takeUpTo 5 isDigit rest).length)).length
          (rest.drop (takeUpTo 5 isDigit rest).length), ?_⟩
        simp only [List.cons_append, List.append_assoc]
        rw [hl₁, hd₁]
      · simp at h
    · simp at h

theorem matchNNumber_complete {w t : List Nat}
    (h : ∃ ds ls, w = 78 :: ds ++ ls ∧ 1 ≤ ds.length ∧ ds.length ≤ 5
      ∧ (∀ d ∈ ds, isDigit d = true) ∧ ls.length ≤ 2 ∧ (∀ l ∈ ls, isUpper l = true)) :
    matchNNumber (w ++ t) ≠ none := by
  obtain ⟨ds, ls, rfl, hlen, _, hdig, _, _⟩ := h
  cases ds with
  | nil => simp at hlen
  | cons d ds =>
    have hd : isDigit d = true := hdig d (by simp)
    simp [matchNNumber, takeUpTo, List.takeWhile_cons, hd]

theorem matchHere_sound {s m : List Nat} (h : matchHere s = some m) :
    m <+: s ∧ CodeFormat m := by
  unfold matchHere at h
  cases h₁ : matchLetterDash4 s with
  | some m₁ =>
    simp [h₁] at h
    subst h
    exact matchLetterDash4_sound h₁
  | none =>
    cases h₂ : matchTwoDash3 s with
    | some m₂ =>
      simp [h₁, h₂] at h
      subst h
      exact matchTwoDash3_sound h₂
    | none =>
      simp [h₁, h₂] at h
      exact matchNNumber_sound h

theorem matchHere_complete {w s : List Nat} (hw : CodeFormat w) (hp : w <+: s) :
    matchHere s ≠ none := by
  obtain ⟨t, rfl⟩ := hp
  unfold matchHere
  rcases hw with h | h | h
  · simp [matchLetterDash4_complete h]
  · rw [matchTwoDash3_complete h]
    cases matchLetterDash4 (w ++ t) <;> simp
  · have := matchNNumber_complete (t := t) h
    cases matchLetterDash4 (w ++ t) <;> cases matchTwoDash3 (w ++ t) <;> simp [this]

theorem codeFormat_ne_nil {w : List Nat} (h : CodeFormat w) : w ≠ [] := by
  rcases h with ⟨a, b₁, b₂, b₃, b₄, rfl, _⟩ | ⟨a₁, a₂, b₁, b₂, b₃, rfl, _⟩ | ⟨ds, ls, rfl, _⟩
    <;> simp

theorem findString_spec (s : List Nat) :
    ((∃ w, w <:+: s ∧ CodeFormat w) → FindString s <:+: s ∧ CodeFormat (FindString s))
    ∧ ((¬ ∃ w, w <:+: s ∧ CodeFormat w) → FindString s = []) := by
  induction s with
  | nil =>
    constructor
    · rintro ⟨w, hw, hf⟩
      have : w = [] := by simpa using hw
      exact absurd this (codeFormat_ne_nil hf)
    · intro _; rfl
  | cons b rest ih =>
    cases hm : matchHere (b :: rest) with
    | some m =>
      obtain ⟨hp, hf⟩ := matchHere_sound hm
      have hfs : FindString (b :: rest) = m := by simp [FindString, hm]
      rw [hfs]
      exact ⟨fun _ => ⟨hp.isInfix, hf⟩, fun hno => absurd ⟨m, hp.isInfix, hf⟩ hno⟩
    | none =>
      have hfs : FindString (b :: rest) = FindString rest := by simp [FindString, hm]
      rw [hfs]
      constructor
      · rintro ⟨w, hw, hf⟩
        rcases List.infix_cons_iff.mp hw with hpre | hin
        · exact absurd hm (matchHere_complete hf hpre)
        · obtain ⟨h₁, h₂⟩ := ih.1 ⟨w, hin, hf⟩
          exact ⟨List.infix_cons h₁, h₂⟩
      · intro hno
        apply ih.2
        rintro ⟨w, hw, hf⟩
        exact hno ⟨w, List.infix_cons hw, hf⟩

/-- C10, as stated, fails: the livery path `"10-ABC"` is itself two
alphanumeric characters, a dash and three letters, yet the pattern of the
source does not match it (`0` is not in `[1-9]`) and the derived registration is
the tail number `"X"`, which is no substring of the livery path. -/
theorem deriveReg_alphanumeric_counterexample :
    (∃ w, w <:+: str "10-ABC" ∧ SpecFormat w)
    ∧ deriveReg (str "10-ABC") (str "X") = str "X"
    ∧ ¬ (deriveReg (str "10-ABC") (str "X") <:+: str "10-ABC") := by
  refine ⟨⟨str "10-ABC", List.infix_refl _, Or.inr (Or.inl ⟨49, 48, 65, 66, 67, ?_⟩)⟩, ?_, ?_⟩
  · decide
  · decide
  · rw [show deriveReg (str "10-ABC") (str "X") = str "X" from by decide]
    rintro ⟨pre, post, h⟩
    have hmem : (88 : Nat) ∈ str "10-ABC" := by
      rw [← h]
      simp [str]
    revert hmem
    decide

/-- C10, amended: with the formats of the pattern in the source (an upper-case
letter, a dash, four upper-case letters; two characters that are each an
upper-case letter or a digit 1..9, a dash, three upper-case letters; `N`, one
to five digits and at most two upper-case letters): if no substring of the
livery path has one of these formats the derived registration is the tail
number; otherwise it is a substring of the livery path that has one of them. -/
theorem deriveReg_rule (liveryPath tailNum : GoString) :
    ((¬ ∃ w, w <:+: liveryPath ∧ CodeFormat w) → deriveReg liveryPath tailNum = tailNum)
    ∧ ((∃ w, w <:+: liveryPath ∧ CodeFormat w) →
        deriveReg liveryPath tailNum <:+: liveryPath
        ∧ CodeFormat (deriveReg liveryPath tailNum)) := by
  constructor
  · intro hno
    simp [deriveReg, (findString_spec liveryPath).2 hno]
  · intro hex
    obtain ⟨h₁, h₂⟩ := (findString_spec liveryPath).1 hex
    have hne : FindString liveryPath ≠ [] := codeFormat_ne_nil h₂
    simp only [deriveReg, hne, ne_eq, not_false_eq_true, if_true]
    exact ⟨h₁, h₂⟩

/-- Witness of the amended C10: the livery path `"liveries/default/"` has no
match and gives the tail number `"D-ABCD"`; the livery path
`"liveries/N12345AB/"` gives `"N12345AB"`. -/
theorem deriveReg_rule_witness :
    deriveReg (str "liveries/default/") (str "D-ABCD") = str "D-ABCD"
    ∧ deriveReg (str "liveries/N12345AB/") (str "D-ABCD") = str "N12345AB"
    ∧ CodeFormat (deriveReg (str "liveries/N12345AB/") (str "D-ABCD")) :=
  ⟨(deriveReg_rule (str "liveries/default/") (str "D-ABCD")).1
      (fun h => codeFormat_ne_nil ((findString_spec _).1 h).2 (by decide)),
   by decide,
   ((deriveReg_rule (str "liveries/N12345AB/") (str "D-ABCD")).2
      ⟨str "N12345AB", ⟨str "liveries/", str "/", by decide⟩,
        Or.inr (Or.inr ⟨str "12345", str "AB", by decide, by decide, by decide, by decide,
          by decide, by decide⟩)⟩).2⟩

/-! ## The trigger subscription across a refetch -/

theorem ready_listenStep {xp : XPlaneUdp} (data : List Nat) (h : Ready xp) :
    Ready (ListenStep xp data) := by
  obtain ⟨hs, hist, hinv⟩ := h
  exact ⟨by rw [(listenStep_frame xp data).2.2]; exact hs, hist, inv_listenStep data hinv⟩

theorem ready_addDataRef {xp : XPlaneUdp} (dataref : GoString) (freq : Int) (h : Ready xp) :
    Ready (AddDataRef xp dataref freq).xp := by
  obtain ⟨hs, hist, hinv⟩ := h
  exact ⟨by unfold AddDataRef; rw [addDataRefIn_socket]; exact hs, _,
    inv_addDataRefIn xp.datarefs dataref freq hinv (List.Perm.refl _)⟩

theorem unregistered_listenStep {xp : XPlaneUdp} {n : GoString} (data : List Nat)
    (h : Unregistered xp n) : Unregistered (ListenStep xp data) n := by
  intro k
  rw [(listenStep_frame xp data).1]
  exact h k

theorem unregistered_addDataRef {xp : XPlaneUdp} {n : GoString} (dataref : GoString)
    (freq : Int) (h : Unregistered xp n) (hfree : freq = 0 ∨ dataref ≠ n) :
    Unregistered (AddDataRef xp dataref freq).xp n := by
  intro k
  unfold AddDataRef AddDataRefIn
  split
  · exact h k
  · dsimp only
    split
    · split
      · show GoMap.get (GoMap.delete xp.datarefs _) k ≠ some n
        rw [GoMap.get_delete]
        split
        · simp
        · exact h k
      · exact h k
    · split
      · rename_i hpos
        show GoMap.get (GoMap.set xp.datarefs _ dataref) k ≠ some n
        rw [GoMap.get_set]
        split
        · rcases hfree with hz | hne
          · omega
          · simpa using hne
        · exact h k
      · exact h k

theorem unregistered_release {xp : XPlaneUdp} (dataref : GoString) (h : Ready xp) :
    Unregistered (AddDataRef xp dataref 0).xp dataref := by
  obtain ⟨hs, hist, hinv⟩ := h
  by_cases hreg : ∃ k, GoMap.get xp.datarefs k = some dataref
  · obtain ⟨k, hk⟩ := hreg
    intro k' hk'
    unfold AddDataRef at hk'
    rw [addDataRefIn_registered 0 hinv (List.Perm.refl _) hs hk] at hk'
    simp only [↓reduceIte] at hk'
    have hk' : GoMap.get (GoMap.delete xp.datarefs k) k' = some dataref := hk'
    rw [GoMap.get_delete] at hk'
    by_cases hkk : k' = k
    · simp [hkk] at hk'
    · simp only [hkk, if_false] at hk'
      exact hkk (hinv.nameInj k' k dataref (GoMap.mem_of_get hk') (GoMap.mem_of_get hk))
  · have hk : Unregistered xp dataref := fun k hk => hreg ⟨k, hk⟩
    exact unregistered_addDataRef dataref 0 hk (Or.inl rfl)

theorem listenAll_induct (P : XPlaneUdp → Prop)
    (hl : ∀ xp data, P xp → P (ListenStep xp data)) (batch : List (List Nat)) :
    ∀ xp, P xp → P (listenAll xp batch) := by
  induction batch with
  | nil => intro xp h; exact h
  | cons d batch ih => intro xp h; exact ih _ (hl xp d h)

theorem addAll_succ (arrive : Nat → List (List Nat)) (base : GoString) (freq : Int)
    (xp : XPlaneUdp) (length : Nat) :
    addAll arrive base freq xp (length + 1) =
      (AddDataRef (listenAll (addAll arrive base freq xp length) (arrive length))
        (drName base length) freq).xp := by
  simp [addAll, List.range_succ, List.foldl_append]

theorem addAll_induct (P : XPlaneUdp → Prop) (arrive : Nat → List (List Nat))
    (base : GoString) (freq : Int)
    (hl : ∀ xp data, P xp → P (ListenStep xp data))
    (ha : ∀ xp i, P xp → P (AddDataRef xp (drName base i) freq).xp) (xp : XPlaneUdp)
    (h : P xp) : ∀ length, P (addAll arrive base freq xp length) := by
  intro length
  induction length with
  | zero => exact h
  | succ length ih =>
    rw [addAll_succ]
    exact ha _ _ (listenAll_induct P hl _ _ ih)

theorem waitLoop_induct (P : XPlaneUdp → Prop) (base : GoString) (length : Nat)
    (hl : ∀ xp data, P xp → P (ListenStep xp data)) (polls : List (List (List Nat))) :
    ∀ xp, P xp → P (waitLoop base length xp polls).1 := by
  induction polls with
  | nil => intro xp h; exact h
  | cons batch rest ih =>
    intro xp h
    have hb := listenAll_induct P hl batch xp h
    simp only [waitLoop]
    split
    · exact hb
    · exact ih _ hb

theorem getString_induct (P : XPlaneUdp → Prop) (base : GoString) (length : Nat)
    (env : Arrivals) (hl : ∀ xp data, P xp → P (ListenStep xp data))
    (ha : ∀ xp i freq, P xp → P (AddDataRef xp (drName base i) freq).xp) (xp : XPlaneUdp)
    (h : P xp) : P (GetString xp base length env).1 := by
  unfold GetString
  exact addAll_induct P _ base 0 hl (fun xp i => ha xp i 0) _
    (waitLoop_induct P base length hl _ _
      (addAll_induct P _ base 1 hl (fun xp i => ha xp i 1) xp h length)) length

theorem ready_getString (xp : XPlaneUdp) (base : GoString) (length : Nat) (env : Arrivals)
    (h : Ready xp) : Ready (GetString xp base length env).1 :=
  getString_induct Ready base length env (fun _ data h => ready_listenStep data h)
    (fun _ _ freq h => ready_addDataRef _ freq h) xp h

/-- After the unsubscribe loop over `length` elements none of them is registered. -/
theorem addAll_zero_unregistered (arrive : Nat → List (List Nat)) (base : GoString)
    (xp : XPlaneUdp) (h : Ready xp) :
    ∀ length, Ready (addAll arrive base 0 xp length)
      ∧ ∀ i, i < length → Unregistered (addAll arrive base 0 xp length) (drName base i) := by
  intro length
  induction length with
  | zero => exact ⟨h, fun i hi => absurd hi (Nat.not_lt_zero i)⟩
  | succ length ih =>
    obtain ⟨hready, hun⟩ := ih
    rw [addAll_succ]
    have hready' := listenAll_induct Ready (fun _ data h => ready_listenStep data h)
      (arrive length) _ hready
    refine ⟨ready_addDataRef _ 0 hready', ?_⟩
    intro i hi
    by_cases hil : i = length
    · subst hil
      exact unregistered_release _ hready'
    · have hlt : i < length := by omega
      apply unregistered_addDataRef _ 0 _ (Or.inl rfl)
      exact listenAll_induct (fun xp => Unregistered xp (drName base i))
        (fun _ data h => unregistered_listenStep data h) _ _ (hun i hlt)

theorem getString_unregisters (xp : XPlaneUdp) (base : GoString) (length : Nat)
    (env : Arrivals) (h : Ready xp) :
    ∀ i, i < length → Unregistered (GetString xp base length env).1 (drName base i) := by
  have h₁ : Ready (addAll env.beforeSubscribe base 1 xp length) :=
    addAll_induct Ready _ base 1 (fun _ data h => ready_listenStep data h)
      (fun _ _ h => ready_addDataRef _ 1 h) xp h length
  have h₂ := waitLoop_induct Ready base length (fun _ data h => ready_listenStep data h)
    env.polls _ h₁
  exact (addAll_zero_unregistered env.beforeUnsubscribe base _ h₂ length).2

theorem getString_keeps_unregistered (xp : XPlaneUdp) (base : GoString) (length : Nat)
    (env : Arrivals) (n : GoString) (hne : ∀ i, drName base i ≠ n)
    (h : Unregistered xp n) : Unregistered (GetString xp base length env).1 n :=
  getString_induct (fun xp => Unregistered xp n) base length env
    (fun _ data h => unregistered_listenStep data h)
    (fun _ i freq h => unregistered_addDataRef _ freq h (Or.inr (hne i))) xp h

theorem byteAt_drName (base : GoString) (i : Nat) (hlen : 22 < base.length) :
    byteAt (drName base i) 22 = byteAt base 22 := by
  unfold drName byteAt
  rw [List.append_assoc, List.append_assoc, List.getD_append _ _ _ _ hlen]

theorem drName_ne_of_byte (base n : GoString) (hlen : 22 < base.length)
    (hb : byteAt base 22 ≠ byteAt n 22) : ∀ i, drName base i ≠ n := by
  intro i heq
  apply hb
  rw [← byteAt_drName base i hlen, heq]

theorem trigger_is_element :
    ∀ dr ∈ icaoTriggerRefs, byteAt dr 22 = 73
      ∧ ∃ i, i < 40 ∧ dr = drName (str "sim/aircraft/view/acf_ICAO") i := by
  intro dr hdr
  simp only [icaoTriggerRefs, List.mem_cons, List.mem_singleton, List.not_mem_nil,
    or_false] at hdr
  rcases hdr with rfl | rfl | rfl | rfl
  · exact ⟨by decide, 0, by decide, by decide⟩
  · exact ⟨by decide, 1, by decide, by decide⟩
  · exact ⟨by decide, 2, by decide, by decide⟩
  · exact ⟨by decide, 3, by decide, by decide⟩

theorem gapCache_reach : ∃ hist, Reach gapCache hist := by
  have h : gapCache = ListenStep (subscribeTriggers (InitSocket NewXPlaneUdp)) gapDatagram := by
    decide
  rw [h]
  exact ⟨_, Reach.listen gapDatagram
    (Reach.addDataRef _ (str "sim/aircraft/view/acf_ICAO[3]") 1
      (Reach.addDataRef _ (str "sim/aircraft/view/acf_ICAO[2]") 1
        (Reach.addDataRef _ (str "sim/aircraft/view/acf_ICAO[1]") 1
          (Reach.addDataRef _ (str "sim/aircraft/view/acf_ICAO[0]") 1
            (Reach.initSocket Reach.new) (List.Perm.refl _))
          (List.Perm.refl _))
        (List.Perm.refl _))
      (List.Perm.refl _))⟩

/-- C7 fails on the code: in a reachable state with a socket, a tick of
`ManageAircraftUpdates` that performs the refetch (the prefix is non-empty and
differs from the last-seen one) ends with none of the four trigger datarefs
`sim/aircraft/view/acf_ICAO[0]` .. `[3]` registered, whatever arrives meanwhile:
the unsubscribe loop of `GetString("sim/aircraft/view/acf_ICAO", 40)` releases
them and nothing subscribes them again. -/
theorem tick_refetch_drops_triggers (m : Monitor) (env : TickEnv)
    (hr : ∃ hist, Reach m.xp hist) (hs : m.xp.socket = true)
    (hcur : currentICAOPrefix m.xp ≠ []) (hne : currentICAOPrefix m.xp ≠ m.lastICAO) :
    ∀ dr ∈ icaoTriggerRefs, ∀ k, GoMap.get (tick m env).1.xp.datarefs k ≠ some dr := by
  intro dr hdr
  obtain ⟨hbyte, i, hi, hname⟩ := trigger_is_element dr hdr
  obtain ⟨hist, hreach⟩ := hr
  have hready : Ready m.xp := ⟨hs, hist, reach_inv hreach⟩
  have h₁ : Unregistered
      (GetString m.xp (str "sim/aircraft/view/acf_ICAO") 40 env.duringICAO).1 dr := by
    rw [hname]
    exact getString_unregisters m.xp _ 40 env.duringICAO hready i hi
  have h₂ := getString_keeps_unregistered _ (str "sim/aircraft/view/acf_tailnum") 40
    env.duringTailnum dr
    (drName_ne_of_byte _ dr (by decide) (by rw [hbyte]; decide)) h₁
  have h₃ := getString_keeps_unregistered _ (str "sim/aircraft/view/acf_livery_path") 255
    env.duringLivery dr
    (drName_ne_of_byte _ dr (by decide) (by rw [hbyte]; decide)) h₂
  have hcond : currentICAOPrefix m.xp ≠ [] ∧ currentICAOPrefix m.xp ≠ m.lastICAO :=
    ⟨hcur, hne⟩
  simp only [tick]
  rw [if_pos hcond]
  exact h₃

/-- The failing input of C7: the monitor has subscribed the four triggers, the
values `'A'`, `0`, `'B'`, `'C'` have arrived and the last-seen prefix is still
empty, as at the start of the loop; after the tick `acf_ICAO[0]` is registered
at no index. -/
theorem tick_refetch_drops_triggers_witness :
    (∃ k, GoMap.get gapCache.datarefs k = some (str "sim/aircraft/view/acf_ICAO[0]"))
    ∧ ∀ k, GoMap.get
        (tick ⟨gapCache, str ""⟩
          ⟨quietArrivals, quietArrivals, quietArrivals, true⟩).1.xp.datarefs k
        ≠ some (str "sim/aircraft/view/acf_ICAO[0]") :=
  ⟨⟨0, by decide⟩,
   tick_refetch_drops_triggers ⟨gapCache, str ""⟩
    ⟨quietArrivals, quietArrivals, quietArrivals, true⟩ gapCache_reach (by decide)
    (by rw [show currentICAOPrefix gapCache = _ from
          currentICAOPrefix_whole gapCache _ gapCache_holds]; decide)
    (by rw [show currentICAOPrefix gapCache = _ from
          currentICAOPrefix_whole gapCache _ gapCache_holds]; decide)
    (str "sim/aircraft/view/acf_ICAO[0]") (by decide)⟩

end OpenVolanta
